import Mathlib

/-!
Shallow embedding of the profiling lifecycle manager of
`Hermes/appscale/hermes/stats/stats_app.py` (class `ProfilingManager`,
function `_configure_profiling`, and the nested helpers `bridge_to_ioloop`
and `profiling_periodical_callback`).

Modelling decisions:
* Python object identity is modelled by heap indices: the manager state
  carries a list of profile-log objects and a list of periodic-task
  objects; the six instance attributes (`nodes_profile_log`, ...,
  `proxies_profile_task`) hold `Option Nat` indices into those lists.
  `None` is `none`; attribute truthiness of an object reference is
  `Option.isSome`.
* `json.loads` and field lookup are modelled by `RawConf`: `absent`
  covers a `None` or empty zookeeper value (both falsy in
  `if not new_conf`), `malformed` covers non-empty bytes that raise
  `ValueError` in `json.loads`, and `parsed` carries a JSON object whose
  relevant fields may each be present or missing; `conf["k"]` on a
  missing field raises `KeyError`.
* Each handler returns the manager state at the moment it returned or
  raised, paired with `Option PyError` (`none` = normal return, `some e`
  = exception `e` propagated out of the handler). In the Python code no
  attribute mutation precedes any raise site, which the translation
  reflects: every raising arm returns the input state unchanged.
* The external collaborators are opaque: a stats source is identified by
  its category tag (`ClusterNodesStatsSource` etc. take no relevant
  state), a profile-log object is reduced to its class tag and its
  mutable `write_detailed_stats` attribute, and a `PeriodicCallback` is
  reduced to its bound source tag, profiler reference, callback time in
  milliseconds, and running flag.
-/

namespace StatsApp

/-- The three stats categories the manager watches. -/
inductive Category : Type
  | nodes
  | processes
  | proxies
deriving DecidableEq, BEq, Repr

/-- The configuration keys the handlers read from a parsed document. -/
inductive ConfKey : Type
  | enabled
  | interval
  | detailed
deriving DecidableEq, Repr

/-- Exceptions the handlers can raise: `json.loads` failure and missing
document fields. -/
inductive PyError : Type
  | valueError
  | keyError (key : ConfKey)
deriving DecidableEq, Repr

/-- A parsed JSON configuration document, restricted to the fields the
handlers read; `none` means the field is missing from the object. -/
structure ConfDoc : Type where
  enabled : Option Bool
  interval : Option Nat
  detailed : Option Bool
deriving DecidableEq, Repr

/-- The raw zookeeper value delivered to a handler. -/
inductive RawConf : Type
  | absent
  | malformed
  | parsed (conf : ConfDoc)
deriving DecidableEq, Repr

/-- A profile-log object (`NodesProfileLog`, `ProcessesProfileLog` or
`ProxiesProfileLog`): its class tag and its mutable
`write_detailed_stats` attribute (`none` until first assigned). -/
structure ProfileLog : Type where
  category : Category
  write_detailed_stats : Option Bool
deriving DecidableEq, Repr

/-- A `PeriodicCallback` as configured by `_configure_profiling`:
the bound stats-source tag, the profiler (a log-heap index), the
callback time `interval*1000` milliseconds, and the running flag. -/
structure PeriodicTask : Type where
  category : Category
  profiler : Nat
  callback_time : Nat
  running : Bool
deriving DecidableEq, Repr

/-- `PeriodicCallback.start`. -/
def PeriodicTask.start (t : PeriodicTask) : PeriodicTask :=
  { t with running := true }

/-- `PeriodicCallback.stop`. -/
def PeriodicTask.stop (t : PeriodicTask) : PeriodicTask :=
  { t with running := false }

/-- `updateAt xs i f` replaces the element at index `i` by its image
under `f`; out-of-range indices leave the list unchanged. Used to model
mutation of a heap-allocated object through a reference. -/
def updateAt {α : Type} (xs : List α) (i : Nat) (f : α → α) : List α :=
  match xs, i with
  | [], _ => []
  | x :: rest, 0 => f x :: rest
  | x :: rest, Nat.succ n => x :: updateAt rest n f

/-- State of a `ProfilingManager` instance: the two heaps and the six
instance attributes. -/
structure ProfilingManager : Type where
  logs : List ProfileLog
  tasks : List PeriodicTask
  nodes_profile_log : Option Nat
  processes_profile_log : Option Nat
  proxies_profile_log : Option Nat
  nodes_profile_task : Option Nat
  processes_profile_task : Option Nat
  proxies_profile_task : Option Nat
deriving DecidableEq, Repr

/-- `ProfilingManager.__init__` attribute initialisation: all six
references are `None`; both heaps start empty. -/
def initManager : ProfilingManager :=
  { logs := []
    tasks := []
    nodes_profile_log := none
    processes_profile_log := none
    proxies_profile_log := none
    nodes_profile_task := none
    processes_profile_task := none
    proxies_profile_task := none }

/-- `_configure_profiling(stats_source, profiler, interval)`: returns
`PeriodicCallback(profiling_periodical_callback, interval*1000)`, not
yet started, closing over the source and the profiler. -/
def configure_profiling (stats_source : Category) (profiler : Nat)
    (interval : Nat) : PeriodicTask :=
  { category := stats_source
    profiler := profiler
    callback_time := interval * 1000
    running := false }

/-- `ProfilingManager.update_nodes_profiling_conf(new_conf, znode_stat)`.
Reads `enabled` and `interval` unconditionally, then either (re)starts or
stops the nodes profiling task. -/
def update_nodes_profiling_conf (self : ProfilingManager)
    (new_conf : RawConf) : ProfilingManager × Option PyError :=
  match new_conf with
  | RawConf.absent => (self, none)
  | RawConf.malformed => (self, some PyError.valueError)
  | RawConf.parsed conf =>
    match conf.enabled with
    | none => (self, some (PyError.keyError ConfKey.enabled))
    | some enabled =>
      match conf.interval with
      | none => (self, some (PyError.keyError ConfKey.interval))
      | some interval =>
        if enabled then
          let pair : ProfilingManager × Nat :=
            match self.nodes_profile_log with
            | none =>
              ({ self with
                  logs := self.logs ++
                    [{ category := Category.nodes,
                       write_detailed_stats := none }]
                  nodes_profile_log := some self.logs.length },
               self.logs.length)
            | some lid => (self, lid)
          let self1 := pair.1
          let logId := pair.2
          let self2 :=
            match self1.nodes_profile_task with
            | some tid =>
              { self1 with tasks := updateAt self1.tasks tid PeriodicTask.stop }
            | none => self1
          let tid2 := self2.tasks.length
          let self3 :=
            { self2 with
                tasks := self2.tasks ++
                  [configure_profiling Category.nodes logId interval]
                nodes_profile_task := some tid2 }
          let self4 :=
            { self3 with tasks := updateAt self3.tasks tid2 PeriodicTask.start }
          (self4, none)
        else
          match self.nodes_profile_task with
          | some tid =>
            ({ self with
                tasks := updateAt self.tasks tid PeriodicTask.stop
                nodes_profile_task := none }, none)
          | none => (self, none)

/-- `ProfilingManager.update_processes_profiling_conf(new_conf,
znode_stat)`. Reads `enabled`, `interval` and `detailed`
unconditionally, assigns `write_detailed_stats` on the (possibly fresh)
log, then either (re)starts or stops the processes profiling task. -/
def update_processes_profiling_conf (self : ProfilingManager)
    (new_conf : RawConf) : ProfilingManager × Option PyError :=
  match new_conf with
  | RawConf.absent => (self, none)
  | RawConf.malformed => (self, some PyError.valueError)
  | RawConf.parsed conf =>
    match conf.enabled with
    | none => (self, some (PyError.keyError ConfKey.enabled))
    | some enabled =>
      match conf.interval with
      | none => (self, some (PyError.keyError ConfKey.interval))
      | some interval =>
        match conf.detailed with
        | none => (self, some (PyError.keyError ConfKey.detailed))
        | some detailed =>
          if enabled then
            let pair : ProfilingManager × Nat :=
              match self.processes_profile_log with
              | none =>
                ({ self with
                    logs := self.logs ++
                      [{ category := Category.processes,
                         write_detailed_stats := none }]
                    processes_profile_log := some self.logs.length },
                 self.logs.length)
              | some lid => (self, lid)
            let self1 := pair.1
            let logId := pair.2
            let self2 :=
              { self1 with
                  logs := updateAt self1.logs logId
                    (fun lg => { lg with write_detailed_stats := some detailed }) }
            let self3 :=
              match self2.processes_profile_task with
              | some tid =>
                { self2 with tasks := updateAt self2.tasks tid PeriodicTask.stop }
              | none => self2
            let tid2 := self3.tasks.length
            let self4 :=
              { self3 with
                  tasks := self3.tasks ++
                    [configure_profiling Category.processes logId interval]
                  processes_profile_task := some tid2 }
            let self5 :=
              { self4 with tasks := updateAt self4.tasks tid2 PeriodicTask.start }
            (self5, none)
          else
            match self.processes_profile_task with
            | some tid =>
              ({ self with
                  tasks := updateAt self.tasks tid PeriodicTask.stop
                  processes_profile_task := none }, none)
            | none => (self, none)

/-- `ProfilingManager.update_proxies_profiling_conf(new_conf,
znode_stat)`. Same shape as the processes handler, on the proxies slot. -/
def update_proxies_profiling_conf (self : ProfilingManager)
    (new_conf : RawConf) : ProfilingManager × Option PyError :=
  match new_conf with
  | RawConf.absent => (self, none)
  | RawConf.malformed => (self, some PyError.valueError)
  | RawConf.parsed conf =>
    match conf.enabled with
    | none => (self, some (PyError.keyError ConfKey.enabled))
    | some enabled =>
      match conf.interval with
      | none => (self, some (PyError.keyError ConfKey.interval))
      | some interval =>
        match conf.detailed with
        | none => (self, some (PyError.keyError ConfKey.detailed))
        | some detailed =>
          if enabled then
            let pair : ProfilingManager × Nat :=
              match self.proxies_profile_log with
              | none =>
                ({ self with
                    logs := self.logs ++
                      [{ category := Category.proxies,
                         write_detailed_stats := none }]
                    proxies_profile_log := some self.logs.length },
                 self.logs.length)
              | some lid => (self, lid)
            let self1 := pair.1
            let logId := pair.2
            let self2 :=
              { self1 with
                  logs := updateAt self1.logs logId
                    (fun lg => { lg with write_detailed_stats := some detailed }) }
            let self3 :=
              match self2.proxies_profile_task with
              | some tid =>
                { self2 with tasks := updateAt self2.tasks tid PeriodicTask.stop }
              | none => self2
            let tid2 := self3.tasks.length
            let self4 :=
              { self3 with
                  tasks := self3.tasks ++
                    [configure_profiling Category.proxies logId interval]
                  proxies_profile_task := some tid2 }
            let self5 :=
              { self4 with tasks := updateAt self4.tasks tid2 PeriodicTask.start }
            (self5, none)
          else
            match self.proxies_profile_task with
            | some tid =>
              ({ self with
                  tasks := updateAt self.tasks tid PeriodicTask.stop
                  proxies_profile_task := none }, none)
            | none => (self, none)

/-- Dispatch to the handler registered for a category in
`ProfilingManager.__init__`. -/
def handlerOf : Category → ProfilingManager → RawConf →
    ProfilingManager × Option PyError
  | Category.nodes => update_nodes_profiling_conf
  | Category.processes => update_processes_profiling_conf
  | Category.proxies => update_proxies_profiling_conf

/-- The task reference currently stored in the slot of a category. -/
def slotTask (m : ProfilingManager) : Category → Option Nat
  | Category.nodes => m.nodes_profile_task
  | Category.processes => m.processes_profile_task
  | Category.proxies => m.proxies_profile_task

/-- The log reference currently stored in the slot of a category. -/
def slotLog (m : ProfilingManager) : Category → Option Nat
  | Category.nodes => m.nodes_profile_log
  | Category.processes => m.processes_profile_log
  | Category.proxies => m.proxies_profile_log

/-- One delivered configuration update: the state after the handler of
the category returned or raised (an exception propagates into the
IOLoop callback machinery and the manager keeps running). -/
def step (m : ProfilingManager) (ev : Category × RawConf) :
    ProfilingManager :=
  (handlerOf ev.1 m ev.2).1

/-- Manager state after a sequence of delivered updates, starting from a
freshly constructed manager. -/
def run (evs : List (Category × RawConf)) : ProfilingManager :=
  evs.foldl step initManager

/-- A call issued to a stats source: `get_current_async(max_age=...)`. -/
structure FetchCall : Type where
  source : Category
  max_age : Nat
deriving DecidableEq, Repr

/-- One firing of `profiling_periodical_callback` of a task: it calls
`stats_source.get_current_async(max_age=0)` and schedules
`write_stats_callback` on the resulting future. -/
def profiling_periodical_callback (t : PeriodicTask) : FetchCall :=
  { source := t.category, max_age := 0 }

/-- The fetch calls produced for a category by advancing time: every
running task of the category fires its periodical callback. -/
def fires (m : ProfilingManager) (cat : Category) : List FetchCall :=
  (m.tasks.filter (fun t => t.running && decide (t.category = cat))).map
    profiling_periodical_callback

/-- A parsed configuration document carrying all three fields, the shape
written to zookeeper by the admin tooling. -/
def fullConf (enabled : Bool) (interval : Nat) (detailed : Bool) : RawConf :=
  RawConf.parsed
    { enabled := some enabled
      interval := some interval
      detailed := some detailed }

/-! ### Heap lemmas -/

theorem length_updateAt {α : Type} (xs : List α) (i : Nat) (f : α → α) :
    (updateAt xs i f).length = xs.length := by
  induction xs generalizing i with
  | nil => rfl
  | cons x rest ih =>
    cases i with
    | zero => rfl
    | succ n => simp [updateAt, ih]

theorem get?_updateAt {α : Type} (xs : List α) (i j : Nat) (f : α → α) :
    (updateAt xs i f).get? j =
      if j = i then (xs.get? j).map f else xs.get? j := by
  induction xs generalizing i j with
  | nil => simp [updateAt]
  | cons x rest ih =>
    cases i with
    | zero =>
      cases j with
      | zero => simp [updateAt]
      | succ n => simp [updateAt]
    | succ m =>
      cases j with
      | zero => simp [updateAt]
      | succ n =>
        simp only [updateAt, List.get?_cons_succ]
        rw [ih m n]
        by_cases h : n = m <;> simp [h]

theorem get?_snoc {α : Type} (xs : List α) (a : α) (j : Nat) :
    (xs ++ [a]).get? j = if j = xs.length then some a else xs.get? j := by
  induction xs generalizing j with
  | nil => cases j <;> simp
  | cons x rest ih =>
    cases j with
    | zero => simp
    | succ n => simpa using ih n

theorem updateAt_snoc_length {α : Type} (xs : List α) (a : α) (f : α → α) :
    updateAt (xs ++ [a]) xs.length f = xs ++ [f a] := by
  induction xs with
  | nil => rfl
  | cons x rest ih => simp [updateAt, ih]

theorem updateAt_snoc {α : Type} (xs : List α) (a : α) (f : α → α) (n : Nat) :
    updateAt (xs ++ [a]) n f =
      if n = xs.length then xs ++ [f a] else updateAt xs n f ++ [a] := by
  induction xs generalizing n with
  | nil => cases n <;> simp [updateAt]
  | cons x rest ih =>
    cases n with
    | zero => simp [updateAt]
    | succ m =>
      simp only [updateAt, List.cons_append, List.length_cons, List.append_eq,
        Nat.succ_eq_add_one]
      rw [ih m]
      by_cases h : m = rest.length <;> simp [h]

/-! ### Branch characterisations of the three handlers

One lemma per combination of (log reference present?, task reference
present?) for an enabled update with all fields present, plus the two
disable cases. These recompute what each Python branch does to the
state. -/

theorem nodes_enable_eq_ss (m : ProfilingManager) (lid tid : Nat)
    (hl : m.nodes_profile_log = some lid)
    (ht : m.nodes_profile_task = some tid)
    (i : Nat) (d : Option Bool) :
    update_nodes_profiling_conf m
      (RawConf.parsed { enabled := some true, interval := some i, detailed := d }) =
      ({ m with
          tasks := updateAt m.tasks tid PeriodicTask.stop ++
            [(configure_profiling Category.nodes lid i).start]
          nodes_profile_task := some m.tasks.length }, none) := by
  simp [update_nodes_profiling_conf, hl, ht, length_updateAt,
    updateAt_snoc]

theorem nodes_enable_eq_sn (m : ProfilingManager) (lid : Nat)
    (hl : m.nodes_profile_log = some lid)
    (ht : m.nodes_profile_task = none)
    (i : Nat) (d : Option Bool) :
    update_nodes_profiling_conf m
      (RawConf.parsed { enabled := some true, interval := some i, detailed := d }) =
      ({ m with
          tasks := m.tasks ++ [(configure_profiling Category.nodes lid i).start]
          nodes_profile_task := some m.tasks.length }, none) := by
  simp [update_nodes_profiling_conf, hl, ht, length_updateAt,
    updateAt_snoc]

theorem nodes_enable_eq_ns (m : ProfilingManager) (tid : Nat)
    (hl : m.nodes_profile_log = none)
    (ht : m.nodes_profile_task = some tid)
    (i : Nat) (d : Option Bool) :
    update_nodes_profiling_conf m
      (RawConf.parsed { enabled := some true, interval := some i, detailed := d }) =
      ({ m with
          logs := m.logs ++
            [{ category := Category.nodes, write_detailed_stats := none }]
          tasks := updateAt m.tasks tid PeriodicTask.stop ++
            [(configure_profiling Category.nodes m.logs.length i).start]
          nodes_profile_log := some m.logs.length
          nodes_profile_task := some m.tasks.length }, none) := by
  simp [update_nodes_profiling_conf, hl, ht, length_updateAt,
    updateAt_snoc]

theorem nodes_enable_eq_nn (m : ProfilingManager)
    (hl : m.nodes_profile_log = none)
    (ht : m.nodes_profile_task = none)
    (i : Nat) (d : Option Bool) :
    update_nodes_profiling_conf m
      (RawConf.parsed { enabled := some true, interval := some i, detailed := d }) =
      ({ m with
          logs := m.logs ++
            [{ category := Category.nodes, write_detailed_stats := none }]
          tasks := m.tasks ++
            [(configure_profiling Category.nodes m.logs.length i).start]
          nodes_profile_log := some m.logs.length
          nodes_profile_task := some m.tasks.length }, none) := by
  simp [update_nodes_profiling_conf, hl, ht, length_updateAt,
    updateAt_snoc]

theorem nodes_disable_eq_s (m : ProfilingManager) (tid : Nat)
    (ht : m.nodes_profile_task = some tid)
    (i : Nat) (d : Option Bool) :
    update_nodes_profiling_conf m
      (RawConf.parsed { enabled := some false, interval := some i, detailed := d }) =
      ({ m with
          tasks := updateAt m.tasks tid PeriodicTask.stop
          nodes_profile_task := none }, none) := by
  simp [update_nodes_profiling_conf, ht]

theorem nodes_disable_eq_n (m : ProfilingManager)
    (ht : m.nodes_profile_task = none)
    (i : Nat) (d : Option Bool) :
    update_nodes_profiling_conf m
      (RawConf.parsed { enabled := some false, interval := some i, detailed := d }) = (m, none) := by
  simp [update_nodes_profiling_conf, ht]

theorem processes_enable_eq_ss (m : ProfilingManager) (lid tid : Nat)
    (hl : m.processes_profile_log = some lid)
    (ht : m.processes_profile_task = some tid)
    (i : Nat) (d : Bool) :
    update_processes_profiling_conf m (fullConf true i d) =
      ({ m with
          logs := updateAt m.logs lid
            (fun lg => { lg with write_detailed_stats := some d })
          tasks := updateAt m.tasks tid PeriodicTask.stop ++
            [(configure_profiling Category.processes lid i).start]
          processes_profile_task := some m.tasks.length }, none) := by
  simp [update_processes_profiling_conf, fullConf, hl, ht, length_updateAt,
    updateAt_snoc]

theorem processes_enable_eq_sn (m : ProfilingManager) (lid : Nat)
    (hl : m.processes_profile_log = some lid)
    (ht : m.processes_profile_task = none)
    (i : Nat) (d : Bool) :
    update_processes_profiling_conf m (fullConf true i d) =
      ({ m with
          logs := updateAt m.logs lid
            (fun lg => { lg with write_detailed_stats := some d })
          tasks := m.tasks ++
            [(configure_profiling Category.processes lid i).start]
          processes_profile_task := some m.tasks.length }, none) := by
  simp [update_processes_profiling_conf, fullConf, hl, ht, length_updateAt,
    updateAt_snoc]

theorem processes_enable_eq_ns (m : ProfilingManager) (tid : Nat)
    (hl : m.processes_profile_log = none)
    (ht : m.processes_profile_task = some tid)
    (i : Nat) (d : Bool) :
    update_processes_profiling_conf m (fullConf true i d) =
      ({ m with
          logs := m.logs ++
            [{ category := Category.processes, write_detailed_stats := some d }]
          tasks := updateAt m.tasks tid PeriodicTask.stop ++
            [(configure_profiling Category.processes m.logs.length i).start]
          processes_profile_log := some m.logs.length
          processes_profile_task := some m.tasks.length }, none) := by
  simp [update_processes_profiling_conf, fullConf, hl, ht, length_updateAt,
    updateAt_snoc]

theorem processes_enable_eq_nn (m : ProfilingManager)
    (hl : m.processes_profile_log = none)
    (ht : m.processes_profile_task = none)
    (i : Nat) (d : Bool) :
    update_processes_profiling_conf m (fullConf true i d) =
      ({ m with
          logs := m.logs ++
            [{ category := Category.processes, write_detailed_stats := some d }]
          tasks := m.tasks ++
            [(configure_profiling Category.processes m.logs.length i).start]
          processes_profile_log := some m.logs.length
          processes_profile_task := some m.tasks.length }, none) := by
  simp [update_processes_profiling_conf, fullConf, hl, ht, length_updateAt,
    updateAt_snoc]

theorem processes_disable_eq_s (m : ProfilingManager) (tid : Nat)
    (ht : m.processes_profile_task = some tid)
    (i : Nat) (d : Bool) :
    update_processes_profiling_conf m (fullConf false i d) =
      ({ m with
          tasks := updateAt m.tasks tid PeriodicTask.stop
          processes_profile_task := none }, none) := by
  simp [update_processes_profiling_conf, fullConf, ht]

theorem processes_disable_eq_n (m : ProfilingManager)
    (ht : m.processes_profile_task = none)
    (i : Nat) (d : Bool) :
    update_processes_profiling_conf m (fullConf false i d) = (m, none) := by
  simp [update_processes_profiling_conf, fullConf, ht]

theorem proxies_enable_eq_ss (m : ProfilingManager) (lid tid : Nat)
    (hl : m.proxies_profile_log = some lid)
    (ht : m.proxies_profile_task = some tid)
    (i : Nat) (d : Bool) :
    update_proxies_profiling_conf m (fullConf true i d) =
      ({ m with
          logs := updateAt m.logs lid
            (fun lg => { lg with write_detailed_stats := some d })
          tasks := updateAt m.tasks tid PeriodicTask.stop ++
            [(configure_profiling Category.proxies lid i).start]
          proxies_profile_task := some m.tasks.length }, none) := by
  simp [update_proxies_profiling_conf, fullConf, hl, ht, length_updateAt,
    updateAt_snoc]

theorem proxies_enable_eq_sn (m : ProfilingManager) (lid : Nat)
    (hl : m.proxies_profile_log = some lid)
    (ht : m.proxies_profile_task = none)
    (i : Nat) (d : Bool) :
    update_proxies_profiling_conf m (fullConf true i d) =
      ({ m with
          logs := updateAt m.logs lid
            (fun lg => { lg with write_detailed_stats := some d })
          tasks := m.tasks ++
            [(configure_profiling Category.proxies lid i).start]
          proxies_profile_task := some m.tasks.length }, none) := by
  simp [update_proxies_profiling_conf, fullConf, hl, ht, length_updateAt,
    updateAt_snoc]

theorem proxies_enable_eq_ns (m : ProfilingManager) (tid : Nat)
    (hl : m.proxies_profile_log = none)
    (ht : m.proxies_profile_task = some tid)
    (i : Nat) (d : Bool) :
    update_proxies_profiling_conf m (fullConf true i d) =
      ({ m with
          logs := m.logs ++
            [{ category := Category.proxies, write_detailed_stats := some d }]
          tasks := updateAt m.tasks tid PeriodicTask.stop ++
            [(configure_profiling Category.proxies m.logs.length i).start]
          proxies_profile_log := some m.logs.length
          proxies_profile_task := some m.tasks.length }, none) := by
  simp [update_proxies_profiling_conf, fullConf, hl, ht, length_updateAt,
    updateAt_snoc]

theorem proxies_enable_eq_nn (m : ProfilingManager)
    (hl : m.proxies_profile_log = none)
    (ht : m.proxies_profile_task = none)
    (i : Nat) (d : Bool) :
    update_proxies_profiling_conf m (fullConf true i d) =
      ({ m with
          logs := m.logs ++
            [{ category := Category.proxies, write_detailed_stats := some d }]
          tasks := m.tasks ++
            [(configure_profiling Category.proxies m.logs.length i).start]
          proxies_profile_log := some m.logs.length
          proxies_profile_task := some m.tasks.length }, none) := by
  simp [update_proxies_profiling_conf, fullConf, hl, ht, length_updateAt,
    updateAt_snoc]

theorem proxies_disable_eq_s (m : ProfilingManager) (tid : Nat)
    (ht : m.proxies_profile_task = some tid)
    (i : Nat) (d : Bool) :
    update_proxies_profiling_conf m (fullConf false i d) =
      ({ m with
          tasks := updateAt m.tasks tid PeriodicTask.stop
          proxies_profile_task := none }, none) := by
  simp [update_proxies_profiling_conf, fullConf, ht]

theorem proxies_disable_eq_n (m : ProfilingManager)
    (ht : m.proxies_profile_task = none)
    (i : Nat) (d : Bool) :
    update_proxies_profiling_conf m (fullConf false i d) = (m, none) := by
  simp [update_proxies_profiling_conf, fullConf, ht]

/-! ### The slot invariant

`ManagerInv` states that every running task in the heap is the task
currently referenced by the slot of its category, and that the slot
references are in range. It holds for a fresh manager and is preserved
by every delivered update, well formed or not. -/

/-- The invariant: a running task is always the current slot task of
its category, and slot references point into the heaps. -/
def ManagerInv (m : ProfilingManager) : Prop :=
  (∀ j t, m.tasks.get? j = some t → t.running = true →
      slotTask m t.category = some j) ∧
  (∀ cat lid, slotLog m cat = some lid → lid < m.logs.length) ∧
  (∀ cat tid, slotTask m cat = some tid → tid < m.tasks.length)

theorem inv_update_processes (m : ProfilingManager) (rc : RawConf)
    (hm : ManagerInv m) :
    ManagerInv (update_processes_profiling_conf m rc).1 := by
  obtain ⟨h1, h2, h3⟩ := hm
  cases rc with
  | absent => exact ⟨h1, h2, h3⟩
  | malformed => exact ⟨h1, h2, h3⟩
  | parsed conf =>
    obtain ⟨eo, io, dopt⟩ := conf
    cases eo with
    | none => exact ⟨h1, h2, h3⟩
    | some e =>
      cases io with
      | none => exact ⟨h1, h2, h3⟩
      | some i =>
        cases dopt with
        | none => exact ⟨h1, h2, h3⟩
        | some d =>
          show ManagerInv (update_processes_profiling_conf m (fullConf e i d)).1
          cases e with
          | false =>
            cases ht : m.processes_profile_task with
            | none =>
              rw [processes_disable_eq_n m ht i d]
              exact ⟨h1, h2, h3⟩
            | some tid =>
              rw [processes_disable_eq_s m tid ht i d]
              refine ⟨?_, ?_, ?_⟩
              · intro j t hj hr
                simp only at hj
                rw [get?_updateAt] at hj
                by_cases hjt : j = tid
                · subst hjt
                  simp only [if_pos rfl] at hj
                  obtain ⟨t0, ht0, rfl⟩ := Option.map_eq_some'.mp hj
                  simp [PeriodicTask.stop] at hr
                · rw [if_neg hjt] at hj
                  have hslot := h1 j t hj hr
                  cases hc : t.category with
                  | processes =>
                    rw [hc] at hslot
                    simp only [slotTask] at hslot
                    rw [ht] at hslot
                    exact absurd (Option.some.inj hslot).symm hjt
                  | nodes => simpa [slotTask, hc] using hslot
                  | proxies => simpa [slotTask, hc] using hslot
              · intro cat lid hl
                cases cat with
                | nodes => exact h2 Category.nodes lid hl
                | processes => exact h2 Category.processes lid hl
                | proxies => exact h2 Category.proxies lid hl
              · intro cat tid2 htg
                cases cat with
                | nodes =>
                  simpa [length_updateAt] using h3 Category.nodes tid2 htg
                | processes => exact absurd htg (by simp [slotTask])
                | proxies =>
                  simpa [length_updateAt] using h3 Category.proxies tid2 htg
          | true =>
            have conj1tail :
                ∀ (p : ProfilingManager) (j : Nat) (t : PeriodicTask),
                  p.processes_profile_task = some m.tasks.length →
                  p.nodes_profile_task = m.nodes_profile_task →
                  p.proxies_profile_task = m.proxies_profile_task →
                  m.tasks.get? j = some t → t.running = true →
                  (t.category = Category.processes → False) →
                  slotTask p t.category = some j := by
              intro p j t hp hn hx hj hr hnp
              have hslot := h1 j t hj hr
              cases hc : t.category with
              | processes => exact absurd hc hnp
              | nodes =>
                rw [hc] at hslot
                simpa [slotTask, hn] using hslot
              | proxies =>
                rw [hc] at hslot
                simpa [slotTask, hx] using hslot
            cases hl : m.processes_profile_log with
            | some lid =>
              cases ht : m.processes_profile_task with
              | some tid =>
                rw [processes_enable_eq_ss m lid tid hl ht i d]
                refine ⟨?_, ?_, ?_⟩
                · intro j t hj hr
                  simp only at hj
                  rw [get?_snoc] at hj
                  simp only [length_updateAt] at hj
                  by_cases hlen : j = m.tasks.length
                  · rw [if_pos hlen] at hj
                    obtain rfl : _ = t := Option.some.inj hj
                    subst hlen
                    simp [slotTask, configure_profiling, PeriodicTask.start]
                  · rw [if_neg hlen] at hj
                    rw [get?_updateAt] at hj
                    by_cases hjt : j = tid
                    · subst hjt
                      rw [if_pos rfl] at hj
                      obtain ⟨t0, ht0, rfl⟩ := Option.map_eq_some'.mp hj
                      simp [PeriodicTask.stop] at hr
                    · rw [if_neg hjt] at hj
                      refine conj1tail _ j t rfl rfl rfl hj hr ?_
                      intro hc
                      have hslot := h1 j t hj hr
                      rw [hc] at hslot
                      simp only [slotTask] at hslot
                      rw [ht] at hslot
                      exact hjt (Option.some.inj hslot).symm
                · intro cat lid2 hl2
                  cases cat with
                  | nodes =>
                    simpa [length_updateAt] using h2 Category.nodes lid2 hl2
                  | processes =>
                    simpa [length_updateAt] using h2 Category.processes lid2 hl2
                  | proxies =>
                    simpa [length_updateAt] using h2 Category.proxies lid2 hl2
                · intro cat tid2 htg
                  cases cat with
                  | nodes =>
                    have := h3 Category.nodes tid2 htg
                    simp [length_updateAt]
                    omega
                  | processes =>
                    obtain rfl : m.tasks.length = tid2 :=
                      Option.some.inj (by simpa [slotTask] using htg)
                    simp [length_updateAt]
                  | proxies =>
                    have := h3 Category.proxies tid2 htg
                    simp [length_updateAt]
                    omega
              | none =>
                rw [processes_enable_eq_sn m lid hl ht i d]
                refine ⟨?_, ?_, ?_⟩
                · intro j t hj hr
                  simp only at hj
                  rw [get?_snoc] at hj
                  by_cases hlen : j = m.tasks.length
                  · rw [if_pos hlen] at hj
                    obtain rfl : _ = t := Option.some.inj hj
                    subst hlen
                    simp [slotTask, configure_profiling, PeriodicTask.start]
                  · rw [if_neg hlen] at hj
                    refine conj1tail _ j t rfl rfl rfl hj hr ?_
                    intro hc
                    have hslot := h1 j t hj hr
                    rw [hc] at hslot
                    simp only [slotTask] at hslot
                    rw [ht] at hslot
                    cases hslot
                · intro cat lid2 hl2
                  cases cat with
                  | nodes =>
                    simpa [length_updateAt] using h2 Category.nodes lid2 hl2
                  | processes =>
                    simpa [length_updateAt] using h2 Category.processes lid2 hl2
                  | proxies =>
                    simpa [length_updateAt] using h2 Category.proxies lid2 hl2
                · intro cat tid2 htg
                  cases cat with
                  | nodes =>
                    have := h3 Category.nodes tid2 htg
                    simp
                    omega
                  | processes =>
                    obtain rfl : m.tasks.length = tid2 :=
                      Option.some.inj (by simpa [slotTask] using htg)
                    simp
                  | proxies =>
                    have := h3 Category.proxies tid2 htg
                    simp
                    omega
            | none =>
              cases ht : m.processes_profile_task with
              | some tid =>
                rw [processes_enable_eq_ns m tid hl ht i d]
                refine ⟨?_, ?_, ?_⟩
                · intro j t hj hr
                  simp only at hj
                  rw [get?_snoc] at hj
                  simp only [length_updateAt] at hj
                  by_cases hlen : j = m.tasks.length
                  · rw [if_pos hlen] at hj
                    obtain rfl : _ = t := Option.some.inj hj
                    subst hlen
                    simp [slotTask, configure_profiling, PeriodicTask.start]
                  · rw [if_neg hlen] at hj
                    rw [get?_updateAt] at hj
                    by_cases hjt : j = tid
                    · subst hjt
                      rw [if_pos rfl] at hj
                      obtain ⟨t0, ht0, rfl⟩ := Option.map_eq_some'.mp hj
                      simp [PeriodicTask.stop] at hr
                    · rw [if_neg hjt] at hj
                      refine conj1tail _ j t rfl rfl rfl hj hr ?_
                      intro hc
                      have hslot := h1 j t hj hr
                      rw [hc] at hslot
                      simp only [slotTask] at hslot
                      rw [ht] at hslot
                      exact hjt (Option.some.inj hslot).symm
                · intro cat lid2 hl2
                  cases cat with
                  | nodes =>
                    have := h2 Category.nodes lid2 hl2
                    simp
                    omega
                  | processes =>
                    obtain rfl : m.logs.length = lid2 :=
                      Option.some.inj (by simpa [slotLog] using hl2)
                    simp
                  | proxies =>
                    have := h2 Category.proxies lid2 hl2
                    simp
                    omega
                · intro cat tid2 htg
                  cases cat with
                  | nodes =>
                    have := h3 Category.nodes tid2 htg
                    simp [length_updateAt]
                    omega
                  | processes =>
                    obtain rfl : m.tasks.length = tid2 :=
                      Option.some.inj (by simpa [slotTask] using htg)
                    simp [length_updateAt]
                  | proxies =>
                    have := h3 Category.proxies tid2 htg
                    simp [length_updateAt]
                    omega
              | none =>
                rw [processes_enable_eq_nn m hl ht i d]
                refine ⟨?_, ?_, ?_⟩
                · intro j t hj hr
                  simp only at hj
                  rw [get?_snoc] at hj
                  by_cases hlen : j = m.tasks.length
                  · rw [if_pos hlen] at hj
                    obtain rfl : _ = t := Option.some.inj hj
                    subst hlen
                    simp [slotTask, configure_profiling, PeriodicTask.start]
                  · rw [if_neg hlen] at hj
                    refine conj1tail _ j t rfl rfl rfl hj hr ?_
                    intro hc
                    have hslot := h1 j t hj hr
                    rw [hc] at hslot
                    simp only [slotTask] at hslot
                    rw [ht] at hslot
                    cases hslot
                · intro cat lid2 hl2
                  cases cat with
                  | nodes =>
                    have := h2 Category.nodes lid2 hl2
                    simp
                    omega
                  | processes =>
                    obtain rfl : m.logs.length = lid2 :=
                      Option.some.inj (by simpa [slotLog] using hl2)
                    simp
                  | proxies =>
                    have := h2 Category.proxies lid2 hl2
                    simp
                    omega
                · intro cat tid2 htg
                  cases cat with
                  | nodes =>
                    have := h3 Category.nodes tid2 htg
                    simp
                    omega
                  | processes =>
                    obtain rfl : m.tasks.length = tid2 :=
                      Option.some.inj (by simpa [slotTask] using htg)
                    simp
                  | proxies =>
                    have := h3 Category.proxies tid2 htg
                    simp
                    omega
theorem inv_update_proxies (m : ProfilingManager) (rc : RawConf)
    (hm : ManagerInv m) :
    ManagerInv (update_proxies_profiling_conf m rc).1 := by
  obtain ⟨h1, h2, h3⟩ := hm
  cases rc with
  | absent => exact ⟨h1, h2, h3⟩
  | malformed => exact ⟨h1, h2, h3⟩
  | parsed conf =>
    obtain ⟨eo, io, dopt⟩ := conf
    cases eo with
    | none => exact ⟨h1, h2, h3⟩
    | some e =>
      cases io with
      | none => exact ⟨h1, h2, h3⟩
      | some i =>
        cases dopt with
        | none => exact ⟨h1, h2, h3⟩
        | some d =>
          show ManagerInv (update_proxies_profiling_conf m (fullConf e i d)).1
          cases e with
          | false =>
            cases ht : m.proxies_profile_task with
            | none =>
              rw [proxies_disable_eq_n m ht i d]
              exact ⟨h1, h2, h3⟩
            | some tid =>
              rw [proxies_disable_eq_s m tid ht i d]
              refine ⟨?_, ?_, ?_⟩
              · intro j t hj hr
                simp only at hj
                rw [get?_updateAt] at hj
                by_cases hjt : j = tid
                · subst hjt
                  simp only [if_pos rfl] at hj
                  obtain ⟨t0, ht0, rfl⟩ := Option.map_eq_some'.mp hj
                  simp [PeriodicTask.stop] at hr
                · rw [if_neg hjt] at hj
                  have hslot := h1 j t hj hr
                  cases hc : t.category with
                  | proxies =>
                    rw [hc] at hslot
                    simp only [slotTask] at hslot
                    rw [ht] at hslot
                    exact absurd (Option.some.inj hslot).symm hjt
                  | nodes => simpa [slotTask, hc] using hslot
                  | processes => simpa [slotTask, hc] using hslot
              · intro cat lid hl
                cases cat with
                | nodes => exact h2 Category.nodes lid hl
                | proxies => exact h2 Category.proxies lid hl
                | processes => exact h2 Category.processes lid hl
              · intro cat tid2 htg
                cases cat with
                | nodes =>
                  simpa [length_updateAt] using h3 Category.nodes tid2 htg
                | proxies => exact absurd htg (by simp [slotTask])
                | processes =>
                  simpa [length_updateAt] using h3 Category.processes tid2 htg
          | true =>
            have conj1tail :
                ∀ (p : ProfilingManager) (j : Nat) (t : PeriodicTask),
                  p.proxies_profile_task = some m.tasks.length →
                  p.nodes_profile_task = m.nodes_profile_task →
                  p.processes_profile_task = m.processes_profile_task →
                  m.tasks.get? j = some t → t.running = true →
                  (t.category = Category.proxies → False) →
                  slotTask p t.category = some j := by
              intro p j t hp hn hx hj hr hnp
              have hslot := h1 j t hj hr
              cases hc : t.category with
              | proxies => exact absurd hc hnp
              | nodes =>
                rw [hc] at hslot
                simpa [slotTask, hn] using hslot
              | processes =>
                rw [hc] at hslot
                simpa [slotTask, hx] using hslot
            cases hl : m.proxies_profile_log with
            | some lid =>
              cases ht : m.proxies_profile_task with
              | some tid =>
                rw [proxies_enable_eq_ss m lid tid hl ht i d]
                refine ⟨?_, ?_, ?_⟩
                · intro j t hj hr
                  simp only at hj
                  rw [get?_snoc] at hj
                  simp only [length_updateAt] at hj
                  by_cases hlen : j = m.tasks.length
                  · rw [if_pos hlen] at hj
                    obtain rfl : _ = t := Option.some.inj hj
                    subst hlen
                    simp [slotTask, configure_profiling, PeriodicTask.start]
                  · rw [if_neg hlen] at hj
                    rw [get?_updateAt] at hj
                    by_cases hjt : j = tid
                    · subst hjt
                      rw [if_pos rfl] at hj
                      obtain ⟨t0, ht0, rfl⟩ := Option.map_eq_some'.mp hj
                      simp [PeriodicTask.stop] at hr
                    · rw [if_neg hjt] at hj
                      refine conj1tail _ j t rfl rfl rfl hj hr ?_
                      intro hc
                      have hslot := h1 j t hj hr
                      rw [hc] at hslot
                      simp only [slotTask] at hslot
                      rw [ht] at hslot
                      exact hjt (Option.some.inj hslot).symm
                · intro cat lid2 hl2
                  cases cat with
                  | nodes =>
                    simpa [length_updateAt] using h2 Category.nodes lid2 hl2
                  | proxies =>
                    simpa [length_updateAt] using h2 Category.proxies lid2 hl2
                  | processes =>
                    simpa [length_updateAt] using h2 Category.processes lid2 hl2
                · intro cat tid2 htg
                  cases cat with
                  | nodes =>
                    have := h3 Category.nodes tid2 htg
                    simp [length_updateAt]
                    omega
                  | proxies =>
                    obtain rfl : m.tasks.length = tid2 :=
                      Option.some.inj (by simpa [slotTask] using htg)
                    simp [length_updateAt]
                  | processes =>
                    have := h3 Category.processes tid2 htg
                    simp [length_updateAt]
                    omega
              | none =>
                rw [proxies_enable_eq_sn m lid hl ht i d]
                refine ⟨?_, ?_, ?_⟩
                · intro j t hj hr
                  simp only at hj
                  rw [get?_snoc] at hj
                  by_cases hlen : j = m.tasks.length
                  · rw [if_pos hlen] at hj
                    obtain rfl : _ = t := Option.some.inj hj
                    subst hlen
                    simp [slotTask, configure_profiling, PeriodicTask.start]
                  · rw [if_neg hlen] at hj
                    refine conj1tail _ j t rfl rfl rfl hj hr ?_
                    intro hc
                    have hslot := h1 j t hj hr
                    rw [hc] at hslot
                    simp only [slotTask] at hslot
                    rw [ht] at hslot
                    cases hslot
                · intro cat lid2 hl2
                  cases cat with
                  | nodes =>
                    simpa [length_updateAt] using h2 Category.nodes lid2 hl2
                  | proxies =>
                    simpa [length_updateAt] using h2 Category.proxies lid2 hl2
                  | processes =>
                    simpa [length_updateAt] using h2 Category.processes lid2 hl2
                · intro cat tid2 htg
                  cases cat with
                  | nodes =>
                    have := h3 Category.nodes tid2 htg
                    simp
                    omega
                  | proxies =>
                    obtain rfl : m.tasks.length = tid2 :=
                      Option.some.inj (by simpa [slotTask] using htg)
                    simp
                  | processes =>
                    have := h3 Category.processes tid2 htg
                    simp
                    omega
            | none =>
              cases ht : m.proxies_profile_task with
              | some tid =>
                rw [proxies_enable_eq_ns m tid hl ht i d]
                refine ⟨?_, ?_, ?_⟩
                · intro j t hj hr
                  simp only at hj
                  rw [get?_snoc] at hj
                  simp only [length_updateAt] at hj
                  by_cases hlen : j = m.tasks.length
                  · rw [if_pos hlen] at hj
                    obtain rfl : _ = t := Option.some.inj hj
                    subst hlen
                    simp [slotTask, configure_profiling, PeriodicTask.start]
                  · rw [if_neg hlen] at hj
                    rw [get?_updateAt] at hj
                    by_cases hjt : j = tid
                    · subst hjt
                      rw [if_pos rfl] at hj
                      obtain ⟨t0, ht0, rfl⟩ := Option.map_eq_some'.mp hj
                      simp [PeriodicTask.stop] at hr
                    · rw [if_neg hjt] at hj
                      refine conj1tail _ j t rfl rfl rfl hj hr ?_
                      intro hc
                      have hslot := h1 j t hj hr
                      rw [hc] at hslot
                      simp only [slotTask] at hslot
                      rw [ht] at hslot
                      exact hjt (Option.some.inj hslot).symm
                · intro cat lid2 hl2
                  cases cat with
                  | nodes =>
                    have := h2 Category.nodes lid2 hl2
                    simp
                    omega
                  | proxies =>
                    obtain rfl : m.logs.length = lid2 :=
                      Option.some.inj (by simpa [slotLog] using hl2)
                    simp
                  | processes =>
                    have := h2 Category.processes lid2 hl2
                    simp
                    omega
                · intro cat tid2 htg
                  cases cat with
                  | nodes =>
                    have := h3 Category.nodes tid2 htg
                    simp [length_updateAt]
                    omega
                  | proxies =>
                    obtain rfl : m.tasks.length = tid2 :=
                      Option.some.inj (by simpa [slotTask] using htg)
                    simp [length_updateAt]
                  | processes =>
                    have := h3 Category.processes tid2 htg
                    simp [length_updateAt]
                    omega
              | none =>
                rw [proxies_enable_eq_nn m hl ht i d]
                refine ⟨?_, ?_, ?_⟩
                · intro j t hj hr
                  simp only at hj
                  rw [get?_snoc] at hj
                  by_cases hlen : j = m.tasks.length
                  · rw [if_pos hlen] at hj
                    obtain rfl : _ = t := Option.some.inj hj
                    subst hlen
                    simp [slotTask, configure_profiling, PeriodicTask.start]
                  · rw [if_neg hlen] at hj
                    refine conj1tail _ j t rfl rfl rfl hj hr ?_
                    intro hc
                    have hslot := h1 j t hj hr
                    rw [hc] at hslot
                    simp only [slotTask] at hslot
                    rw [ht] at hslot
                    cases hslot
                · intro cat lid2 hl2
                  cases cat with
                  | nodes =>
                    have := h2 Category.nodes lid2 hl2
                    simp
                    omega
                  | proxies =>
                    obtain rfl : m.logs.length = lid2 :=
                      Option.some.inj (by simpa [slotLog] using hl2)
                    simp
                  | processes =>
                    have := h2 Category.processes lid2 hl2
                    simp
                    omega
                · intro cat tid2 htg
                  cases cat with
                  | nodes =>
                    have := h3 Category.nodes tid2 htg
                    simp
                    omega
                  | proxies =>
                    obtain rfl : m.tasks.length = tid2 :=
                      Option.some.inj (by simpa [slotTask] using htg)
                    simp
                  | processes =>
                    have := h3 Category.processes tid2 htg
                    simp
                    omega

theorem inv_update_nodes (m : ProfilingManager) (rc : RawConf)
    (hm : ManagerInv m) :
    ManagerInv (update_nodes_profiling_conf m rc).1 := by
  obtain ⟨h1, h2, h3⟩ := hm
  cases rc with
  | absent => exact ⟨h1, h2, h3⟩
  | malformed => exact ⟨h1, h2, h3⟩
  | parsed conf =>
    obtain ⟨eo, io, dopt⟩ := conf
    cases eo with
    | none => exact ⟨h1, h2, h3⟩
    | some e =>
      cases io with
      | none => exact ⟨h1, h2, h3⟩
      | some i =>
        cases e with
        | false =>
          cases ht : m.nodes_profile_task with
          | none =>
            rw [nodes_disable_eq_n m ht i dopt]
            exact ⟨h1, h2, h3⟩
          | some tid =>
            rw [nodes_disable_eq_s m tid ht i dopt]
            refine ⟨?_, ?_, ?_⟩
            · intro j t hj hr
              simp only at hj
              rw [get?_updateAt] at hj
              by_cases hjt : j = tid
              · subst hjt
                simp only [if_pos rfl] at hj
                obtain ⟨t0, ht0, rfl⟩ := Option.map_eq_some'.mp hj
                simp [PeriodicTask.stop] at hr
              · rw [if_neg hjt] at hj
                have hslot := h1 j t hj hr
                cases hc : t.category with
                | nodes =>
                  rw [hc] at hslot
                  simp only [slotTask] at hslot
                  rw [ht] at hslot
                  exact absurd (Option.some.inj hslot).symm hjt
                | processes => simpa [slotTask, hc] using hslot
                | proxies => simpa [slotTask, hc] using hslot
            · intro cat lid hl
              cases cat with
              | nodes => exact h2 Category.nodes lid hl
              | processes => exact h2 Category.processes lid hl
              | proxies => exact h2 Category.proxies lid hl
            · intro cat tid2 htg
              cases cat with
              | nodes => exact absurd htg (by simp [slotTask])
              | processes =>
                simpa [length_updateAt] using h3 Category.processes tid2 htg
              | proxies =>
                simpa [length_updateAt] using h3 Category.proxies tid2 htg
        | true =>
          have conj1tail :
              ∀ (p : ProfilingManager) (j : Nat) (t : PeriodicTask),
                p.nodes_profile_task = some m.tasks.length →
                p.processes_profile_task = m.processes_profile_task →
                p.proxies_profile_task = m.proxies_profile_task →
                m.tasks.get? j = some t → t.running = true →
                (t.category = Category.nodes → False) →
                slotTask p t.category = some j := by
            intro p j t hp hn hx hj hr hnp
            have hslot := h1 j t hj hr
            cases hc : t.category with
            | nodes => exact absurd hc hnp
            | processes =>
              rw [hc] at hslot
              simpa [slotTask, hn] using hslot
            | proxies =>
              rw [hc] at hslot
              simpa [slotTask, hx] using hslot
          cases hl : m.nodes_profile_log with
          | some lid =>
            cases ht : m.nodes_profile_task with
            | some tid =>
              rw [nodes_enable_eq_ss m lid tid hl ht i dopt]
              refine ⟨?_, ?_, ?_⟩
              · intro j t hj hr
                simp only at hj
                rw [get?_snoc] at hj
                simp only [length_updateAt] at hj
                by_cases hlen : j = m.tasks.length
                · rw [if_pos hlen] at hj
                  obtain rfl : _ = t := Option.some.inj hj
                  subst hlen
                  simp [slotTask, configure_profiling, PeriodicTask.start]
                · rw [if_neg hlen] at hj
                  rw [get?_updateAt] at hj
                  by_cases hjt : j = tid
                  · subst hjt
                    rw [if_pos rfl] at hj
                    obtain ⟨t0, ht0, rfl⟩ := Option.map_eq_some'.mp hj
                    simp [PeriodicTask.stop] at hr
                  · rw [if_neg hjt] at hj
                    refine conj1tail _ j t rfl rfl rfl hj hr ?_
                    intro hc
                    have hslot := h1 j t hj hr
                    rw [hc] at hslot
                    simp only [slotTask] at hslot
                    rw [ht] at hslot
                    exact hjt (Option.some.inj hslot).symm
              · intro cat lid2 hl2
                cases cat with
                | nodes => exact h2 Category.nodes lid2 hl2
                | processes => exact h2 Category.processes lid2 hl2
                | proxies => exact h2 Category.proxies lid2 hl2
              · intro cat tid2 htg
                cases cat with
                | nodes =>
                  obtain rfl : m.tasks.length = tid2 :=
                    Option.some.inj (by simpa [slotTask] using htg)
                  simp [length_updateAt]
                | processes =>
                  have := h3 Category.processes tid2 htg
                  simp [length_updateAt]
                  omega
                | proxies =>
                  have := h3 Category.proxies tid2 htg
                  simp [length_updateAt]
                  omega
            | none =>
              rw [nodes_enable_eq_sn m lid hl ht i dopt]
              refine ⟨?_, ?_, ?_⟩
              · intro j t hj hr
                simp only at hj
                rw [get?_snoc] at hj
                by_cases hlen : j = m.tasks.length
                · rw [if_pos hlen] at hj
                  obtain rfl : _ = t := Option.some.inj hj
                  subst hlen
                  simp [slotTask, configure_profiling, PeriodicTask.start]
                · rw [if_neg hlen] at hj
                  refine conj1tail _ j t rfl rfl rfl hj hr ?_
                  intro hc
                  have hslot := h1 j t hj hr
                  rw [hc] at hslot
                  simp only [slotTask] at hslot
                  rw [ht] at hslot
                  cases hslot
              · intro cat lid2 hl2
                cases cat with
                | nodes => exact h2 Category.nodes lid2 hl2
                | processes => exact h2 Category.processes lid2 hl2
                | proxies => exact h2 Category.proxies lid2 hl2
              · intro cat tid2 htg
                cases cat with
                | nodes =>
                  obtain rfl : m.tasks.length = tid2 :=
                    Option.some.inj (by simpa [slotTask] using htg)
                  simp
                | processes =>
                  have := h3 Category.processes tid2 htg
                  simp
                  omega
                | proxies =>
                  have := h3 Category.proxies tid2 htg
                  simp
                  omega
          | none =>
            cases ht : m.nodes_profile_task with
            | some tid =>
              rw [nodes_enable_eq_ns m tid hl ht i dopt]
              refine ⟨?_, ?_, ?_⟩
              · intro j t hj hr
                simp only at hj
                rw [get?_snoc] at hj
                simp only [length_updateAt] at hj
                by_cases hlen : j = m.tasks.length
                · rw [if_pos hlen] at hj
                  obtain rfl : _ = t := Option.some.inj hj
                  subst hlen
                  simp [slotTask, configure_profiling, PeriodicTask.start]
                · rw [if_neg hlen] at hj
                  rw [get?_updateAt] at hj
                  by_cases hjt : j = tid
                  · subst hjt
                    rw [if_pos rfl] at hj
                    obtain ⟨t0, ht0, rfl⟩ := Option.map_eq_some'.mp hj
                    simp [PeriodicTask.stop] at hr
                  · rw [if_neg hjt] at hj
                    refine conj1tail _ j t rfl rfl rfl hj hr ?_
                    intro hc
                    have hslot := h1 j t hj hr
                    rw [hc] at hslot
                    simp only [slotTask] at hslot
                    rw [ht] at hslot
                    exact hjt (Option.some.inj hslot).symm
              · intro cat lid2 hl2
                cases cat with
                | nodes =>
                  obtain rfl : m.logs.length = lid2 :=
                    Option.some.inj (by simpa [slotLog] using hl2)
                  simp
                | processes =>
                  have := h2 Category.processes lid2 hl2
                  simp
                  omega
                | proxies =>
                  have := h2 Category.proxies lid2 hl2
                  simp
                  omega
              · intro cat tid2 htg
                cases cat with
                | nodes =>
                  obtain rfl : m.tasks.length = tid2 :=
                    Option.some.inj (by simpa [slotTask] using htg)
                  simp [length_updateAt]
                | processes =>
                  have := h3 Category.processes tid2 htg
                  simp [length_updateAt]
                  omega
                | proxies =>
                  have := h3 Category.proxies tid2 htg
                  simp [length_updateAt]
                  omega
            | none =>
              rw [nodes_enable_eq_nn m hl ht i dopt]
              refine ⟨?_, ?_, ?_⟩
              · intro j t hj hr
                simp only at hj
                rw [get?_snoc] at hj
                by_cases hlen : j = m.tasks.length
                · rw [if_pos hlen] at hj
                  obtain rfl : _ = t := Option.some.inj hj
                  subst hlen
                  simp [slotTask, configure_profiling, PeriodicTask.start]
                · rw [if_neg hlen] at hj
                  refine conj1tail _ j t rfl rfl rfl hj hr ?_
                  intro hc
                  have hslot := h1 j t hj hr
                  rw [hc] at hslot
                  simp only [slotTask] at hslot
                  rw [ht] at hslot
                  cases hslot
              · intro cat lid2 hl2
                cases cat with
                | nodes =>
                  obtain rfl : m.logs.length = lid2 :=
                    Option.some.inj (by simpa [slotLog] using hl2)
                  simp
                | processes =>
                  have := h2 Category.processes lid2 hl2
                  simp
                  omega
                | proxies =>
                  have := h2 Category.proxies lid2 hl2
                  simp
                  omega
              · intro cat tid2 htg
                cases cat with
                | nodes =>
                  obtain rfl : m.tasks.length = tid2 :=
                    Option.some.inj (by simpa [slotTask] using htg)
                  simp
                | processes =>
                  have := h3 Category.processes tid2 htg
                  simp
                  omega
                | proxies =>
                  have := h3 Category.proxies tid2 htg
                  simp
                  omega

theorem inv_initManager : ManagerInv initManager := by
  refine ⟨?_, ?_, ?_⟩
  · intro j t hj
    simp [initManager] at hj
  · intro cat lid hl
    cases cat <;> simp [slotLog, initManager] at hl
  · intro cat tid ht
    cases cat <;> simp [slotTask, initManager] at ht

theorem inv_step (m : ProfilingManager) (ev : Category × RawConf)
    (hm : ManagerInv m) : ManagerInv (step m ev) := by
  obtain ⟨cat, rc⟩ := ev
  cases cat with
  | nodes => exact inv_update_nodes m rc hm
  | processes => exact inv_update_processes m rc hm
  | proxies => exact inv_update_proxies m rc hm

theorem inv_run (evs : List (Category × RawConf)) : ManagerInv (run evs) := by
  have h : ∀ m, ManagerInv m → ManagerInv (evs.foldl step m) := by
    induction evs with
    | nil => intro m hm; exact hm
    | cons ev rest ih => intro m hm; exact ih (step m ev) (inv_step m ev hm)
  exact h initManager inv_initManager


theorem processes_enable_keeps_log (m : ProfilingManager) (lid : Nat)
    (hl : m.processes_profile_log = some lid) (i : Nat) (d : Bool) :
    (update_processes_profiling_conf m (fullConf true i d)).1.processes_profile_log
        = some lid ∧
    (update_processes_profiling_conf m (fullConf true i d)).1.logs.length
        = m.logs.length := by
  cases ht : m.processes_profile_task with
  | some tid =>
    rw [processes_enable_eq_ss m lid tid hl ht i d]
    simp [length_updateAt, hl]
  | none =>
    rw [processes_enable_eq_sn m lid hl ht i d]
    simp [length_updateAt, hl]

theorem processes_enable_fresh_log (m : ProfilingManager)
    (hl : m.processes_profile_log = none) (i : Nat) (d : Bool) :
    (update_processes_profiling_conf m (fullConf true i d)).1.processes_profile_log
        = some m.logs.length ∧
    (update_processes_profiling_conf m (fullConf true i d)).1.logs.length
        = m.logs.length + 1 := by
  cases ht : m.processes_profile_task with
  | some tid =>
    rw [processes_enable_eq_ns m tid hl ht i d]
    simp
  | none =>
    rw [processes_enable_eq_nn m hl ht i d]
    simp

theorem processes_enable_new_task (m : ProfilingManager) (lid : Nat)
    (hl : m.processes_profile_log = some lid) (i : Nat) (d : Bool) :
    (update_processes_profiling_conf m (fullConf true i d)).1.processes_profile_task
        = some m.tasks.length ∧
    (update_processes_profiling_conf m (fullConf true i d)).1.tasks.get?
          m.tasks.length
        = some ((configure_profiling Category.processes lid i).start) := by
  cases ht : m.processes_profile_task with
  | some tid =>
    rw [processes_enable_eq_ss m lid tid hl ht i d]
    refine ⟨rfl, ?_⟩
    show (updateAt m.tasks tid PeriodicTask.stop ++ _).get? m.tasks.length = _
    rw [get?_snoc]
    simp [length_updateAt]
  | none =>
    rw [processes_enable_eq_sn m lid hl ht i d]
    refine ⟨rfl, ?_⟩
    show (m.tasks ++ _).get? m.tasks.length = _
    rw [get?_snoc]
    simp

theorem processes_disable_facts (m : ProfilingManager) (i : Nat) (d : Bool) :
    (update_processes_profiling_conf m (fullConf false i d)).1.processes_profile_log
        = m.processes_profile_log ∧
    (update_processes_profiling_conf m (fullConf false i d)).1.logs = m.logs ∧
    (update_processes_profiling_conf m (fullConf false i d)).1.processes_profile_task
        = none ∧
    (update_processes_profiling_conf m (fullConf false i d)).2 = none := by
  cases ht : m.processes_profile_task with
  | some tid =>
    rw [processes_disable_eq_s m tid ht i d]
    exact ⟨rfl, rfl, rfl, rfl⟩
  | none =>
    rw [processes_disable_eq_n m ht i d]
    exact ⟨rfl, rfl, ht, rfl⟩

theorem processes_disable_stops (m : ProfilingManager) (tid : Nat)
    (t : PeriodicTask) (ht : m.processes_profile_task = some tid)
    (hg : m.tasks.get? tid = some t) (i : Nat) (d : Bool) :
    (update_processes_profiling_conf m (fullConf false i d)).1.tasks.get? tid
        = some t.stop := by
  rw [processes_disable_eq_s m tid ht i d]
  show (updateAt m.tasks tid PeriodicTask.stop).get? tid = _
  rw [get?_updateAt, if_pos rfl, hg]
  rfl

theorem processes_error_state (m : ProfilingManager) (rc : RawConf)
    (e : PyError) (h : (update_processes_profiling_conf m rc).2 = some e) :
    (update_processes_profiling_conf m rc).1 = m := by
  cases rc with
  | absent => rfl
  | malformed => rfl
  | parsed conf =>
    obtain ⟨eo, io, dopt⟩ := conf
    cases eo with
    | none => rfl
    | some en =>
      cases io with
      | none => rfl
      | some i =>
        cases dopt with
        | none => rfl
        | some d =>
          exfalso
          rw [show (RawConf.parsed ⟨some en, some i, some d⟩) = fullConf en i d
            from rfl] at h
          cases en with
          | false =>
            rw [(processes_disable_facts m i d).2.2.2] at h
            cases h
          | true =>
            cases hl : m.processes_profile_log with
            | some lid =>
              cases ht : m.processes_profile_task with
              | some tid => rw [processes_enable_eq_ss m lid tid hl ht i d] at h; cases h
              | none => rw [processes_enable_eq_sn m lid hl ht i d] at h; cases h
            | none =>
              cases ht : m.processes_profile_task with
              | some tid => rw [processes_enable_eq_ns m tid hl ht i d] at h; cases h
              | none => rw [processes_enable_eq_nn m hl ht i d] at h; cases h

theorem proxies_enable_keeps_log (m : ProfilingManager) (lid : Nat)
    (hl : m.proxies_profile_log = some lid) (i : Nat) (d : Bool) :
    (update_proxies_profiling_conf m (fullConf true i d)).1.proxies_profile_log
        = some lid ∧
    (update_proxies_profiling_conf m (fullConf true i d)).1.logs.length
        = m.logs.length := by
  cases ht : m.proxies_profile_task with
  | some tid =>
    rw [proxies_enable_eq_ss m lid tid hl ht i d]
    simp [length_updateAt, hl]
  | none =>
    rw [proxies_enable_eq_sn m lid hl ht i d]
    simp [length_updateAt, hl]

theorem proxies_enable_fresh_log (m : ProfilingManager)
    (hl : m.proxies_profile_log = none) (i : Nat) (d : Bool) :
    (update_proxies_profiling_conf m (fullConf true i d)).1.proxies_profile_log
        = some m.logs.length ∧
    (update_proxies_profiling_conf m (fullConf true i d)).1.logs.length
        = m.logs.length + 1 := by
  cases ht : m.proxies_profile_task with
  | some tid =>
    rw [proxies_enable_eq_ns m tid hl ht i d]
    simp
  | none =>
    rw [proxies_enable_eq_nn m hl ht i d]
    simp

theorem proxies_enable_new_task (m : ProfilingManager) (lid : Nat)
    (hl : m.proxies_profile_log = some lid) (i : Nat) (d : Bool) :
    (update_proxies_profiling_conf m (fullConf true i d)).1.proxies_profile_task
        = some m.tasks.length ∧
    (update_proxies_profiling_conf m (fullConf true i d)).1.tasks.get?
          m.tasks.length
        = some ((configure_profiling Category.proxies lid i).start) := by
  cases ht : m.proxies_profile_task with
  | some tid =>
    rw [proxies_enable_eq_ss m lid tid hl ht i d]
    refine ⟨rfl, ?_⟩
    show (updateAt m.tasks tid PeriodicTask.stop ++ _).get? m.tasks.length = _
    rw [get?_snoc]
    simp [length_updateAt]
  | none =>
    rw [proxies_enable_eq_sn m lid hl ht i d]
    refine ⟨rfl, ?_⟩
    show (m.tasks ++ _).get? m.tasks.length = _
    rw [get?_snoc]
    simp

theorem proxies_disable_facts (m : ProfilingManager) (i : Nat) (d : Bool) :
    (update_proxies_profiling_conf m (fullConf false i d)).1.proxies_profile_log
        = m.proxies_profile_log ∧
    (update_proxies_profiling_conf m (fullConf false i d)).1.logs = m.logs ∧
    (update_proxies_profiling_conf m (fullConf false i d)).1.proxies_profile_task
        = none ∧
    (update_proxies_profiling_conf m (fullConf false i d)).2 = none := by
  cases ht : m.proxies_profile_task with
  | some tid =>
    rw [proxies_disable_eq_s m tid ht i d]
    exact ⟨rfl, rfl, rfl, rfl⟩
  | none =>
    rw [proxies_disable_eq_n m ht i d]
    exact ⟨rfl, rfl, ht, rfl⟩

theorem proxies_disable_stops (m : ProfilingManager) (tid : Nat)
    (t : PeriodicTask) (ht : m.proxies_profile_task = some tid)
    (hg : m.tasks.get? tid = some t) (i : Nat) (d : Bool) :
    (update_proxies_profiling_conf m (fullConf false i d)).1.tasks.get? tid
        = some t.stop := by
  rw [proxies_disable_eq_s m tid ht i d]
  show (updateAt m.tasks tid PeriodicTask.stop).get? tid = _
  rw [get?_updateAt, if_pos rfl, hg]
  rfl

theorem proxies_error_state (m : ProfilingManager) (rc : RawConf)
    (e : PyError) (h : (update_proxies_profiling_conf m rc).2 = some e) :
    (update_proxies_profiling_conf m rc).1 = m := by
  cases rc with
  | absent => rfl
  | malformed => rfl
  | parsed conf =>
    obtain ⟨eo, io, dopt⟩ := conf
    cases eo with
    | none => rfl
    | some en =>
      cases io with
      | none => rfl
      | some i =>
        cases dopt with
        | none => rfl
        | some d =>
          exfalso
          rw [show (RawConf.parsed ⟨some en, some i, some d⟩) = fullConf en i d
            from rfl] at h
          cases en with
          | false =>
            rw [(proxies_disable_facts m i d).2.2.2] at h
            cases h
          | true =>
            cases hl : m.proxies_profile_log with
            | some lid =>
              cases ht : m.proxies_profile_task with
              | some tid => rw [proxies_enable_eq_ss m lid tid hl ht i d] at h; cases h
              | none => rw [proxies_enable_eq_sn m lid hl ht i d] at h; cases h
            | none =>
              cases ht : m.proxies_profile_task with
              | some tid => rw [proxies_enable_eq_ns m tid hl ht i d] at h; cases h
              | none => rw [proxies_enable_eq_nn m hl ht i d] at h; cases h



theorem nodes_enable_keeps_log (m : ProfilingManager) (lid : Nat)
    (hl : m.nodes_profile_log = some lid) (i : Nat) (d : Option Bool) :
    (update_nodes_profiling_conf m
        (RawConf.parsed
          { enabled := some true, interval := some i, detailed := d })).1.nodes_profile_log = some lid ∧
    (update_nodes_profiling_conf m
        (RawConf.parsed
          { enabled := some true, interval := some i, detailed := d })).1.logs = m.logs := by
  cases ht : m.nodes_profile_task with
  | some tid =>
    rw [nodes_enable_eq_ss m lid tid hl ht i d]
    exact ⟨hl, rfl⟩
  | none =>
    rw [nodes_enable_eq_sn m lid hl ht i d]
    exact ⟨hl, rfl⟩

theorem nodes_enable_fresh_log (m : ProfilingManager)
    (hl : m.nodes_profile_log = none) (i : Nat) (d : Option Bool) :
    (update_nodes_profiling_conf m
        (RawConf.parsed
          { enabled := some true, interval := some i, detailed := d })).1.nodes_profile_log = some m.logs.length ∧
    (update_nodes_profiling_conf m
        (RawConf.parsed
          { enabled := some true, interval := some i, detailed := d })).1.logs.length = m.logs.length + 1 := by
  cases ht : m.nodes_profile_task with
  | some tid =>
    rw [nodes_enable_eq_ns m tid hl ht i d]
    simp
  | none =>
    rw [nodes_enable_eq_nn m hl ht i d]
    simp

theorem nodes_enable_new_task (m : ProfilingManager) (lid : Nat)
    (hl : m.nodes_profile_log = some lid) (i : Nat) (d : Option Bool) :
    (update_nodes_profiling_conf m
        (RawConf.parsed
          { enabled := some true, interval := some i, detailed := d })).1.nodes_profile_task = some m.tasks.length ∧
    (update_nodes_profiling_conf m
        (RawConf.parsed
          { enabled := some true, interval := some i, detailed := d })).1.tasks.get? m.tasks.length
        = some ((configure_profiling Category.nodes lid i).start) := by
  cases ht : m.nodes_profile_task with
  | some tid =>
    rw [nodes_enable_eq_ss m lid tid hl ht i d]
    refine ⟨rfl, ?_⟩
    show (updateAt m.tasks tid PeriodicTask.stop ++ _).get? m.tasks.length = _
    rw [get?_snoc]
    simp [length_updateAt]
  | none =>
    rw [nodes_enable_eq_sn m lid hl ht i d]
    refine ⟨rfl, ?_⟩
    show (m.tasks ++ _).get? m.tasks.length = _
    rw [get?_snoc]
    simp

theorem nodes_disable_facts (m : ProfilingManager) (i : Nat) (d : Option Bool) :
    (update_nodes_profiling_conf m
        (RawConf.parsed
          { enabled := some false, interval := some i, detailed := d })).1.nodes_profile_log = m.nodes_profile_log ∧
    (update_nodes_profiling_conf m
        (RawConf.parsed
          { enabled := some false, interval := some i, detailed := d })).1.logs = m.logs ∧
    (update_nodes_profiling_conf m
        (RawConf.parsed
          { enabled := some false, interval := some i, detailed := d })).1.nodes_profile_task = none ∧
    (update_nodes_profiling_conf m
        (RawConf.parsed
          { enabled := some false, interval := some i, detailed := d })).2 = none := by
  cases ht : m.nodes_profile_task with
  | some tid =>
    rw [nodes_disable_eq_s m tid ht i d]
    exact ⟨rfl, rfl, rfl, rfl⟩
  | none =>
    rw [nodes_disable_eq_n m ht i d]
    exact ⟨rfl, rfl, ht, rfl⟩

theorem nodes_disable_stops (m : ProfilingManager) (tid : Nat)
    (t : PeriodicTask) (ht : m.nodes_profile_task = some tid)
    (hg : m.tasks.get? tid = some t) (i : Nat) (d : Option Bool) :
    (update_nodes_profiling_conf m
        (RawConf.parsed
          { enabled := some false, interval := some i, detailed := d })).1.tasks.get? tid = some t.stop := by
  rw [nodes_disable_eq_s m tid ht i d]
  show (updateAt m.tasks tid PeriodicTask.stop).get? tid = _
  rw [get?_updateAt, if_pos rfl, hg]
  rfl

theorem nodes_error_state (m : ProfilingManager) (rc : RawConf)
    (e : PyError) (h : (update_nodes_profiling_conf m rc).2 = some e) :
    (update_nodes_profiling_conf m rc).1 = m := by
  cases rc with
  | absent => rfl
  | malformed => rfl
  | parsed conf =>
    obtain ⟨eo, io, dopt⟩ := conf
    cases eo with
    | none => rfl
    | some en =>
      cases io with
      | none => rfl
      | some i =>
        exfalso
        cases en with
        | false =>
          rw [(nodes_disable_facts m i dopt).2.2.2] at h
          cases h
        | true =>
          cases hl : m.nodes_profile_log with
          | some lid =>
            cases ht : m.nodes_profile_task with
            | some tid => rw [nodes_enable_eq_ss m lid tid hl ht i dopt] at h; cases h
            | none => rw [nodes_enable_eq_sn m lid hl ht i dopt] at h; cases h
          | none =>
            cases ht : m.nodes_profile_task with
            | some tid => rw [nodes_enable_eq_ns m tid hl ht i dopt] at h; cases h
            | none => rw [nodes_enable_eq_nn m hl ht i dopt] at h; cases h



/-- If the slot of a category is empty and the invariant holds, advancing
time produces no fetch call for that category: no orphan task keeps
ticking. -/
theorem fires_eq_nil (p : ProfilingManager) (hp : ManagerInv p)
    (cat : Category) (h : slotTask p cat = none) :
    fires p cat = [] := by
  obtain ⟨h1, _, _⟩ := hp
  unfold fires
  rw [List.filter_eq_nil_iff.mpr, List.map_nil]
  intro t htm
  obtain ⟨n, hn⟩ := List.get?_of_mem htm
  cases hr : t.running with
  | false => simp [hr]
  | true =>
    by_cases hc : t.category = cat
    · exfalso
      have := h1 n t hn hr
      rw [hc, h] at this
      cases this
    · simp [hc]

/-- A callback registered with `IOLoop.add_callback(f, new_conf,
znode_stat)`: the function together with the two arguments it will be
applied to when the loop gets to it. -/
structure ScheduledCall (α β γ : Type) : Type where
  update_function : α → β → γ
  new_conf : α
  znode_stat : β

/-- Executing a scheduled callback on the loop applies the stored
function to the stored arguments. -/
def runScheduled {α β γ : Type} (c : ScheduledCall α β γ) : γ :=
  c.update_function c.new_conf c.znode_stat

/-- `bridge_to_ioloop(update_function)` returns `update_in_ioloop`:
called with `(new_conf, znode_stat)` while the IOLoop holds a FIFO queue
of pending callbacks, it appends one callback that will apply
`update_function` to exactly those two arguments, and has no other
effect (in particular it does not apply `update_function` itself). -/
def bridge_to_ioloop {α β γ : Type} (update_function : α → β → γ) :
    α → β → List (ScheduledCall α β γ) → List (ScheduledCall α β γ) :=
  fun new_conf znode_stat ioloop_queue =>
    ioloop_queue ++
      [{ update_function := update_function
         new_conf := new_conf
         znode_stat := znode_stat }]



theorem processes_enable_no_error (m : ProfilingManager) (i : Nat) (d : Bool) :
    (update_processes_profiling_conf m (fullConf true i d)).2 = none := by
  cases hl : m.processes_profile_log with
  | some lid =>
    cases ht : m.processes_profile_task with
    | some tid => rw [processes_enable_eq_ss m lid tid hl ht i d]
    | none => rw [processes_enable_eq_sn m lid hl ht i d]
  | none =>
    cases ht : m.processes_profile_task with
    | some tid => rw [processes_enable_eq_ns m tid hl ht i d]
    | none => rw [processes_enable_eq_nn m hl ht i d]

theorem processes_enable_stops_old (m : ProfilingManager) (lid tid : Nat)
    (t : PeriodicTask) (hl : m.processes_profile_log = some lid)
    (ht : m.processes_profile_task = some tid)
    (hg : m.tasks.get? tid = some t) (i : Nat) (d : Bool) :
    (update_processes_profiling_conf m (fullConf true i d)).1.tasks.get? tid
      = some t.stop := by
  have htlt : tid < m.tasks.length := (List.get?_eq_some.mp hg).1
  rw [processes_enable_eq_ss m lid tid hl ht i d]
  show (updateAt m.tasks tid PeriodicTask.stop ++ _).get? tid = _
  rw [get?_snoc, length_updateAt, if_neg (Nat.ne_of_lt htlt), get?_updateAt,
    if_pos rfl, hg]
  rfl

theorem processes_enable_live_log (m : ProfilingManager) (lid : Nat)
    (hl : m.processes_profile_log = some lid) (hlt : lid < m.logs.length)
    (i : Nat) (d : Bool) :
    ∃ lg, (update_processes_profiling_conf m (fullConf true i d)).1.logs.get? lid
        = some lg ∧ lg.write_detailed_stats = some d := by
  have hlg0 : m.logs.get? lid = some (m.logs.get ⟨lid, hlt⟩) :=
    List.get?_eq_get hlt
  refine ⟨{ m.logs.get ⟨lid, hlt⟩ with write_detailed_stats := some d },
    ?_, rfl⟩
  cases ht : m.processes_profile_task with
  | some tid =>
    rw [processes_enable_eq_ss m lid tid hl ht i d]
    show (updateAt m.logs lid _).get? lid = _
    rw [get?_updateAt, if_pos rfl, hlg0]
    rfl
  | none =>
    rw [processes_enable_eq_sn m lid hl ht i d]
    show (updateAt m.logs lid _).get? lid = _
    rw [get?_updateAt, if_pos rfl, hlg0]
    rfl

theorem processes_enable_fresh_live_log (m : ProfilingManager)
    (hl : m.processes_profile_log = none) (i : Nat) (d : Bool) :
    (update_processes_profiling_conf m (fullConf true i d)).1.logs.get?
        m.logs.length
      = some { category := Category.processes, write_detailed_stats := some d } := by
  cases ht : m.processes_profile_task with
  | some tid =>
    rw [processes_enable_eq_ns m tid hl ht i d]
    show (m.logs ++ _).get? m.logs.length = _
    rw [get?_snoc, if_pos rfl]
  | none =>
    rw [processes_enable_eq_nn m hl ht i d]
    show (m.logs ++ _).get? m.logs.length = _
    rw [get?_snoc, if_pos rfl]

theorem proxies_enable_no_error (m : ProfilingManager) (i : Nat) (d : Bool) :
    (update_proxies_profiling_conf m (fullConf true i d)).2 = none := by
  cases hl : m.proxies_profile_log with
  | some lid =>
    cases ht : m.proxies_profile_task with
    | some tid => rw [proxies_enable_eq_ss m lid tid hl ht i d]
    | none => rw [proxies_enable_eq_sn m lid hl ht i d]
  | none =>
    cases ht : m.proxies_profile_task with
    | some tid => rw [proxies_enable_eq_ns m tid hl ht i d]
    | none => rw [proxies_enable_eq_nn m hl ht i d]

theorem proxies_enable_stops_old (m : ProfilingManager) (lid tid : Nat)
    (t : PeriodicTask) (hl : m.proxies_profile_log = some lid)
    (ht : m.proxies_profile_task = some tid)
    (hg : m.tasks.get? tid = some t) (i : Nat) (d : Bool) :
    (update_proxies_profiling_conf m (fullConf true i d)).1.tasks.get? tid
      = some t.stop := by
  have htlt : tid < m.tasks.length := (List.get?_eq_some.mp hg).1
  rw [proxies_enable_eq_ss m lid tid hl ht i d]
  show (updateAt m.tasks tid PeriodicTask.stop ++ _).get? tid = _
  rw [get?_snoc, length_updateAt, if_neg (Nat.ne_of_lt htlt), get?_updateAt,
    if_pos rfl, hg]
  rfl

theorem proxies_enable_live_log (m : ProfilingManager) (lid : Nat)
    (hl : m.proxies_profile_log = some lid) (hlt : lid < m.logs.length)
    (i : Nat) (d : Bool) :
    ∃ lg, (update_proxies_profiling_conf m (fullConf true i d)).1.logs.get? lid
        = some lg ∧ lg.write_detailed_stats = some d := by
  have hlg0 : m.logs.get? lid = some (m.logs.get ⟨lid, hlt⟩) :=
    List.get?_eq_get hlt
  refine ⟨{ m.logs.get ⟨lid, hlt⟩ with write_detailed_stats := some d },
    ?_, rfl⟩
  cases ht : m.proxies_profile_task with
  | some tid =>
    rw [proxies_enable_eq_ss m lid tid hl ht i d]
    show (updateAt m.logs lid _).get? lid = _
    rw [get?_updateAt, if_pos rfl, hlg0]
    rfl
  | none =>
    rw [proxies_enable_eq_sn m lid hl ht i d]
    show (updateAt m.logs lid _).get? lid = _
    rw [get?_updateAt, if_pos rfl, hlg0]
    rfl

theorem proxies_enable_fresh_live_log (m : ProfilingManager)
    (hl : m.proxies_profile_log = none) (i : Nat) (d : Bool) :
    (update_proxies_profiling_conf m (fullConf true i d)).1.logs.get?
        m.logs.length
      = some { category := Category.proxies, write_detailed_stats := some d } := by
  cases ht : m.proxies_profile_task with
  | some tid =>
    rw [proxies_enable_eq_ns m tid hl ht i d]
    show (m.logs ++ _).get? m.logs.length = _
    rw [get?_snoc, if_pos rfl]
  | none =>
    rw [proxies_enable_eq_nn m hl ht i d]
    show (m.logs ++ _).get? m.logs.length = _
    rw [get?_snoc, if_pos rfl]

theorem nodes_enable_no_error (m : ProfilingManager) (i : Nat)
    (d : Option Bool) :
    (update_nodes_profiling_conf m (RawConf.parsed
        { enabled := some true, interval := some i, detailed := d })).2
      = none := by
  cases hl : m.nodes_profile_log with
  | some lid =>
    cases ht : m.nodes_profile_task with
    | some tid => rw [nodes_enable_eq_ss m lid tid hl ht i d]
    | none => rw [nodes_enable_eq_sn m lid hl ht i d]
  | none =>
    cases ht : m.nodes_profile_task with
    | some tid => rw [nodes_enable_eq_ns m tid hl ht i d]
    | none => rw [nodes_enable_eq_nn m hl ht i d]

theorem nodes_enable_stops_old (m : ProfilingManager) (lid tid : Nat)
    (t : PeriodicTask) (hl : m.nodes_profile_log = some lid)
    (ht : m.nodes_profile_task = some tid)
    (hg : m.tasks.get? tid = some t) (i : Nat) (d : Option Bool) :
    (update_nodes_profiling_conf m (RawConf.parsed
        { enabled := some true, interval := some i,
          detailed := d })).1.tasks.get? tid
      = some t.stop := by
  have htlt : tid < m.tasks.length := (List.get?_eq_some.mp hg).1
  rw [nodes_enable_eq_ss m lid tid hl ht i d]
  show (updateAt m.tasks tid PeriodicTask.stop ++ _).get? tid = _
  rw [get?_snoc, length_updateAt, if_neg (Nat.ne_of_lt htlt), get?_updateAt,
    if_pos rfl, hg]
  rfl


end StatsApp

namespace StatsApp

/-- Claim C6: for every category handler and every prior slot state,
delivering an empty or absent raw configuration value returns without
raising and without mutating any state: the log reference, the task
reference and every task object (hence its running flag) are unchanged. -/
theorem C6_absent_conf_preserves_state (cat : Category)
    (m : ProfilingManager) :
    handlerOf cat m RawConf.absent = (m, none) := by
  cases cat <;> rfl

/-- Claim C10: every handler reads all of its required configuration
keys before checking `enabled`: a parsable object missing `interval`
(any category) or missing `detailed` (processes, proxies) makes a
`KeyError` escape the handler for every `enabled` value, including
`false`, and the state is returned unchanged. -/
theorem C10_required_keys_read_unconditionally :
    (∀ (m : ProfilingManager) (e : Bool) (dopt : Option Bool),
      update_nodes_profiling_conf m (RawConf.parsed
          { enabled := some e, interval := none, detailed := dopt })
        = (m, some (PyError.keyError ConfKey.interval))) ∧
    (∀ (m : ProfilingManager) (e : Bool) (dopt : Option Bool),
      update_processes_profiling_conf m (RawConf.parsed
          { enabled := some e, interval := none, detailed := dopt })
        = (m, some (PyError.keyError ConfKey.interval))) ∧
    (∀ (m : ProfilingManager) (e : Bool) (i : Nat),
      update_processes_profiling_conf m (RawConf.parsed
          { enabled := some e, interval := some i, detailed := none })
        = (m, some (PyError.keyError ConfKey.detailed))) ∧
    (∀ (m : ProfilingManager) (e : Bool) (dopt : Option Bool),
      update_proxies_profiling_conf m (RawConf.parsed
          { enabled := some e, interval := none, detailed := dopt })
        = (m, some (PyError.keyError ConfKey.interval))) ∧
    (∀ (m : ProfilingManager) (e : Bool) (i : Nat),
      update_proxies_profiling_conf m (RawConf.parsed
          { enabled := some e, interval := some i, detailed := none })
        = (m, some (PyError.keyError ConfKey.detailed))) :=
  ⟨fun _ _ _ => rfl, fun _ _ _ => rfl, fun _ _ _ => rfl, fun _ _ _ => rfl,
    fun _ _ _ => rfl⟩

/-- Claim C1 (counterexample): a malformed payload does NOT stay inside
the handler: delivered to the processes handler of a fresh manager it
propagates a `ValueError` out of the handler (the state is preserved,
but the claim that no exception propagates is false). -/
theorem C1_counterexample :
    update_processes_profiling_conf initManager RawConf.malformed
      = (initManager, some PyError.valueError) := rfl

/-- Claim C1 (amended): a malformed configuration payload (unparsable
raw bytes, or a parsed document missing a required field) makes the
raised exception propagate out of the handler, and the slot state at
that point is exactly the state before the update: no log or task
reference was touched. -/
theorem C1_error_leaves_state_unchanged (cat : Category)
    (m : ProfilingManager) (rc : RawConf) (e : PyError)
    (h : (handlerOf cat m rc).2 = some e) :
    (handlerOf cat m rc).1 = m := by
  cases cat with
  | nodes => exact nodes_error_state m rc e h
  | processes => exact processes_error_state m rc e h
  | proxies => exact proxies_error_state m rc e h

theorem C1_witness :
    (handlerOf Category.processes initManager RawConf.malformed).1
      = initManager :=
  C1_error_leaves_state_unchanged Category.processes initManager
    RawConf.malformed PyError.valueError rfl

/-- Claim C9: every fetch issued by a tick of any running profiling task
calls the stats source with max_age equal to zero. -/
theorem C9_fetch_max_age_zero (m : ProfilingManager) (cat : Category)
    (fc : FetchCall) (h : fc ∈ fires m cat) : fc.max_age = 0 := by
  unfold fires at h
  obtain ⟨t, _, rfl⟩ := List.mem_map.mp h
  rfl

theorem C9_witness :
    ({ source := Category.nodes, max_age := 0 } : FetchCall).max_age = 0 :=
  C9_fetch_max_age_zero (run [(Category.nodes, fullConf true 1 false)])
    Category.nodes { source := Category.nodes, max_age := 0 } (by decide)

/-- Claim C8: the wrapper returned by the bridge, invoked with a
notification pair, appends exactly one callback to the FIFO queue of
the single execution context, leaves the pending callbacks unchanged,
and the scheduled callback applies the original function to exactly the
two delivered arguments; nothing is invoked synchronously. -/
theorem C8_bridge_schedules_single_callback (α β γ : Type)
    (update_function : α → β → γ) (new_conf : α) (znode_stat : β)
    (ioloop_queue : List (ScheduledCall α β γ)) :
    (bridge_to_ioloop update_function new_conf znode_stat
        ioloop_queue).length = ioloop_queue.length + 1 ∧
    (bridge_to_ioloop update_function new_conf znode_stat
        ioloop_queue).take ioloop_queue.length = ioloop_queue ∧
    (bridge_to_ioloop update_function new_conf znode_stat
        ioloop_queue).getLast?
      = some { update_function := update_function, new_conf := new_conf,
               znode_stat := znode_stat } ∧
    runScheduled { update_function := update_function, new_conf := new_conf,
                   znode_stat := znode_stat }
      = update_function new_conf znode_stat := by
  refine ⟨?_, ?_, ?_, rfl⟩
  · simp [bridge_to_ioloop]
  · simp [bridge_to_ioloop, List.take_left]
  · simp [bridge_to_ioloop]

/-- Claim C4: along every sequence of configuration updates delivered
through the handlers, at most one started-and-not-stopped task exists
per category: two running tasks of the same category are the same heap
object. -/
theorem C4_at_most_one_running_task (evs : List (Category × RawConf))
    (cat : Category) (i j : Nat) (ti tj : PeriodicTask)
    (hi : (run evs).tasks.get? i = some ti)
    (hj : (run evs).tasks.get? j = some tj)
    (hri : ti.running = true) (hrj : tj.running = true)
    (hci : ti.category = cat) (hcj : tj.category = cat) : i = j := by
  obtain ⟨h1, _, _⟩ := inv_run evs
  have hsi := h1 i ti hi hri
  have hsj := h1 j tj hj hrj
  rw [hci] at hsi
  rw [hcj] at hsj
  rw [hsi] at hsj
  exact Option.some.inj hsj

theorem C4_witness : (0 : Nat) = 0 :=
  C4_at_most_one_running_task [(Category.nodes, fullConf true 1 false)]
    Category.nodes 0 0
    { category := Category.nodes, profiler := 0, callback_time := 1000,
      running := true }
    { category := Category.nodes, profiler := 0, callback_time := 1000,
      running := true }
    (by decide) (by decide) rfl rfl rfl rfl


/-- Claim C3 (counterexample): delivering the bare payload
`{"enabled": false}` to the processes handler of a manager with a
running processes task does NOT stop the task: the handler raises
`KeyError` on the missing `interval` key before reaching the disable
branch, the state is unchanged, and the task still fires. -/
theorem C3_counterexample :
    update_processes_profiling_conf
        (run [(Category.processes, fullConf true 5 false)])
        (RawConf.parsed
          { enabled := some false, interval := none, detailed := none })
      = (run [(Category.processes, fullConf true 5 false)],
         some (PyError.keyError ConfKey.interval)) ∧
    fires (run [(Category.processes, fullConf true 5 false)])
        Category.processes
      = [{ source := Category.processes, max_age := 0 }] := by
  exact ⟨rfl, by decide⟩

/-- Claim C3 (amended): delivering a configuration that carries the
required keys of the category with enabled equal to false stops the
stored task, clears the task reference of the slot, raises nothing, and
afterwards advancing time produces zero fetch calls for the category. -/
theorem C3_disable_stops_task_no_ticks (evs : List (Category × RawConf))
    (cat : Category) (i : Nat) (d : Bool) :
    (handlerOf cat (run evs) (fullConf false i d)).2 = none ∧
    slotTask (step (run evs) (cat, fullConf false i d)) cat = none ∧
    fires (step (run evs) (cat, fullConf false i d)) cat = [] ∧
    (∀ tid t, slotTask (run evs) cat = some tid →
      (run evs).tasks.get? tid = some t →
      (step (run evs) (cat, fullConf false i d)).tasks.get? tid
        = some t.stop) := by
  have hinv : ManagerInv (step (run evs) (cat, fullConf false i d)) :=
    inv_step (run evs) (cat, fullConf false i d) (inv_run evs)
  cases cat with
  | nodes =>
    have hfacts := nodes_disable_facts (run evs) i (some d)
    exact ⟨hfacts.2.2.2, hfacts.2.2.1,
      fires_eq_nil _ hinv Category.nodes hfacts.2.2.1,
      fun tid t htid hg => nodes_disable_stops (run evs) tid t htid hg i
        (some d)⟩
  | processes =>
    have hfacts := processes_disable_facts (run evs) i d
    exact ⟨hfacts.2.2.2, hfacts.2.2.1,
      fires_eq_nil _ hinv Category.processes hfacts.2.2.1,
      fun tid t htid hg => processes_disable_stops (run evs) tid t htid hg i
        d⟩
  | proxies =>
    have hfacts := proxies_disable_facts (run evs) i d
    exact ⟨hfacts.2.2.2, hfacts.2.2.1,
      fires_eq_nil _ hinv Category.proxies hfacts.2.2.1,
      fun tid t htid hg => proxies_disable_stops (run evs) tid t htid hg i
        d⟩

theorem C3_witness :
    (step (run [(Category.processes, fullConf true 5 false)])
        (Category.processes, fullConf false 5 false)).tasks.get? 0
      = some ({ category := Category.processes, profiler := 0,
                callback_time := 5000, running := true }
          : PeriodicTask).stop :=
  (C3_disable_stops_task_no_ticks
      [(Category.processes, fullConf true 5 false)]
      Category.processes 5 false).2.2.2 0
    { category := Category.processes, profiler := 0, callback_time := 5000,
      running := true }
    (by decide) (by decide)

/-- Claim C5: for a category whose slot holds a log and a running task,
an update with enabled true and interval I2 raises nothing, keeps the
log reference identical, stops the old task object, and stores a newly
constructed running task configured with interval I2 (callback time
I2*1000) bound to the same log; the new task is a different heap object
from the old one. -/
theorem C5_enabled_update_restarts_with_same_log (cat : Category)
    (m : ProfilingManager) (lid tid : Nat) (t : PeriodicTask)
    (hl : slotLog m cat = some lid) (ht : slotTask m cat = some tid)
    (hg : m.tasks.get? tid = some t) (_hr : t.running = true)
    (i2 : Nat) (d : Bool) :
    (handlerOf cat m (fullConf true i2 d)).2 = none ∧
    slotLog (handlerOf cat m (fullConf true i2 d)).1 cat = some lid ∧
    (handlerOf cat m (fullConf true i2 d)).1.tasks.get? tid = some t.stop ∧
    slotTask (handlerOf cat m (fullConf true i2 d)).1 cat
      = some m.tasks.length ∧
    (handlerOf cat m (fullConf true i2 d)).1.tasks.get? m.tasks.length
      = some ((configure_profiling cat lid i2).start) ∧
    tid ≠ m.tasks.length := by
  have htlt : tid < m.tasks.length := (List.get?_eq_some.mp hg).1
  cases cat with
  | nodes =>
    exact ⟨nodes_enable_no_error m i2 (some d),
      (nodes_enable_keeps_log m lid hl i2 (some d)).1,
      nodes_enable_stops_old m lid tid t hl ht hg i2 (some d),
      (nodes_enable_new_task m lid hl i2 (some d)).1,
      (nodes_enable_new_task m lid hl i2 (some d)).2,
      Nat.ne_of_lt htlt⟩
  | processes =>
    exact ⟨processes_enable_no_error m i2 d,
      (processes_enable_keeps_log m lid hl i2 d).1,
      processes_enable_stops_old m lid tid t hl ht hg i2 d,
      (processes_enable_new_task m lid hl i2 d).1,
      (processes_enable_new_task m lid hl i2 d).2,
      Nat.ne_of_lt htlt⟩
  | proxies =>
    exact ⟨proxies_enable_no_error m i2 d,
      (proxies_enable_keeps_log m lid hl i2 d).1,
      proxies_enable_stops_old m lid tid t hl ht hg i2 d,
      (proxies_enable_new_task m lid hl i2 d).1,
      (proxies_enable_new_task m lid hl i2 d).2,
      Nat.ne_of_lt htlt⟩

theorem C5_witness :
    slotLog (handlerOf Category.processes
        (run [(Category.processes, fullConf true 5 false)])
        (fullConf true 7 true)).1 Category.processes = some 0 :=
  (C5_enabled_update_restarts_with_same_log Category.processes
      (run [(Category.processes, fullConf true 5 false)]) 0 0
      { category := Category.processes, profiler := 0, callback_time := 5000,
        running := true }
      (by decide) (by decide) (by decide) rfl 7 true).2.1

/-- Claim C7: for processes and proxies, every update with enabled true
stores the delivered detailed value in the write_detailed_stats flag of
the live log, whether the log is freshly created or carried over from a
previous update: after the update the flag of the referenced log equals
the delivered value. -/
theorem C7_detailed_flag_always_applied (evs : List (Category × RawConf))
    (i : Nat) (d : Bool) :
    (∃ lid lg,
      (update_processes_profiling_conf (run evs)
          (fullConf true i d)).1.processes_profile_log = some lid ∧
      (update_processes_profiling_conf (run evs)
          (fullConf true i d)).1.logs.get? lid = some lg ∧
      lg.write_detailed_stats = some d) ∧
    (∃ lid lg,
      (update_proxies_profiling_conf (run evs)
          (fullConf true i d)).1.proxies_profile_log = some lid ∧
      (update_proxies_profiling_conf (run evs)
          (fullConf true i d)).1.logs.get? lid = some lg ∧
      lg.write_detailed_stats = some d) := by
  obtain ⟨_, h2, _⟩ := inv_run evs
  constructor
  · cases hl : (run evs).processes_profile_log with
    | some lid =>
      have hlt : lid < (run evs).logs.length := h2 Category.processes lid hl
      obtain ⟨lg, hlg, hflag⟩ :=
        processes_enable_live_log (run evs) lid hl hlt i d
      exact ⟨lid, lg, (processes_enable_keeps_log (run evs) lid hl i d).1,
        hlg, hflag⟩
    | none =>
      exact ⟨(run evs).logs.length,
        { category := Category.processes, write_detailed_stats := some d },
        (processes_enable_fresh_log (run evs) hl i d).1,
        processes_enable_fresh_live_log (run evs) hl i d, rfl⟩
  · cases hl : (run evs).proxies_profile_log with
    | some lid =>
      have hlt : lid < (run evs).logs.length := h2 Category.proxies lid hl
      obtain ⟨lg, hlg, hflag⟩ :=
        proxies_enable_live_log (run evs) lid hl hlt i d
      exact ⟨lid, lg, (proxies_enable_keeps_log (run evs) lid hl i d).1,
        hlg, hflag⟩
    | none =>
      exact ⟨(run evs).logs.length,
        { category := Category.proxies, write_detailed_stats := some d },
        (proxies_enable_fresh_log (run evs) hl i d).1,
        proxies_enable_fresh_live_log (run evs) hl i d, rfl⟩

/-- Claim C2 (counterexample): category nodes, enable with interval 5,
then disable, then enable with interval 7: the manager still references
heap log 0, the log created during the first enabled period, and the
log heap still has a single entry, so no fresh log was created for the
re-enable. -/
theorem C2_counterexample :
    (run [(Category.nodes, fullConf true 5 false),
          (Category.nodes, fullConf false 5 false),
          (Category.nodes, fullConf true 7 false)]).logs.length = 1 ∧
    (run [(Category.nodes, fullConf true 5 false),
          (Category.nodes, fullConf false 5 false),
          (Category.nodes, fullConf true 7 false)]).nodes_profile_log
      = some 0 ∧
    (run [(Category.nodes, fullConf true 5 false)]).nodes_profile_log
      = some 0 := by
  decide

/-- Claim C2 (amended): after enable, full disable and re-enable, the
Profile Log used by the new task is the SAME instance as the one live
during the first enabled period: the slot keeps the log reference
across the disable, the log heap does not grow, and the freshly started
task is bound to that same log. -/
theorem C2_log_object_reused (m m1 m2 m3 : ProfilingManager)
    (cat : Category) (i1 i2 i3 : Nat) (d1 d2 d3 : Bool)
    (s1 : m1 = step m (cat, fullConf true i1 d1))
    (s2 : m2 = step m1 (cat, fullConf false i2 d2))
    (s3 : m3 = step m2 (cat, fullConf true i3 d3)) :
    slotLog m3 cat = slotLog m1 cat ∧
    m3.logs.length = m1.logs.length ∧
    (∀ tid, slotTask m3 cat = some tid →
      ∃ t, m3.tasks.get? tid = some t ∧
        some t.profiler = slotLog m1 cat) := by
  subst s1
  subst s2
  subst s3
  cases cat with
  | nodes =>
    simp only [step, handlerOf, slotLog, slotTask, fullConf]
    have hl1 : ∃ l, (update_nodes_profiling_conf m (RawConf.parsed
        { enabled := some true, interval := some i1,
          detailed := some d1 })).1.nodes_profile_log = some l := by
      cases hl : m.nodes_profile_log with
      | some lid => exact ⟨lid, (nodes_enable_keeps_log m lid hl i1 (some d1)).1⟩
      | none =>
        exact ⟨m.logs.length, (nodes_enable_fresh_log m hl i1 (some d1)).1⟩
    obtain ⟨l, hl1⟩ := hl1
    have hd := nodes_disable_facts
      (update_nodes_profiling_conf m (RawConf.parsed
        { enabled := some true, interval := some i1,
          detailed := some d1 })).1 i2 (some d2)
    have hl2 := hd.1.trans hl1
    have hk := nodes_enable_keeps_log _ l hl2 i3 (some d3)
    have hnt := nodes_enable_new_task _ l hl2 i3 (some d3)
    refine ⟨?_, ?_, ?_⟩
    · rw [hk.1, hl1]
    · rw [hk.2, hd.2.1]
    · intro tid htid
      rw [hnt.1] at htid
      obtain rfl := Option.some.inj htid
      exact ⟨(configure_profiling Category.nodes l i3).start, hnt.2,
        by rw [hl1]; rfl⟩
  | processes =>
    simp only [step, handlerOf, slotLog, slotTask]
    have hl1 : ∃ l, (update_processes_profiling_conf m
        (fullConf true i1 d1)).1.processes_profile_log = some l := by
      cases hl : m.processes_profile_log with
      | some lid => exact ⟨lid, (processes_enable_keeps_log m lid hl i1 d1).1⟩
      | none =>
        exact ⟨m.logs.length, (processes_enable_fresh_log m hl i1 d1).1⟩
    obtain ⟨l, hl1⟩ := hl1
    have hd := processes_disable_facts
      (update_processes_profiling_conf m (fullConf true i1 d1)).1 i2 d2
    have hl2 := hd.1.trans hl1
    have hk := processes_enable_keeps_log _ l hl2 i3 d3
    have hnt := processes_enable_new_task _ l hl2 i3 d3
    refine ⟨?_, ?_, ?_⟩
    · rw [hk.1, hl1]
    · rw [hk.2, hd.2.1]
    · intro tid htid
      rw [hnt.1] at htid
      obtain rfl := Option.some.inj htid
      exact ⟨(configure_profiling Category.processes l i3).start, hnt.2,
        by rw [hl1]; rfl⟩
  | proxies =>
    simp only [step, handlerOf, slotLog, slotTask]
    have hl1 : ∃ l, (update_proxies_profiling_conf m
        (fullConf true i1 d1)).1.proxies_profile_log = some l := by
      cases hl : m.proxies_profile_log with
      | some lid => exact ⟨lid, (proxies_enable_keeps_log m lid hl i1 d1).1⟩
      | none =>
        exact ⟨m.logs.length, (proxies_enable_fresh_log m hl i1 d1).1⟩
    obtain ⟨l, hl1⟩ := hl1
    have hd := proxies_disable_facts
      (update_proxies_profiling_conf m (fullConf true i1 d1)).1 i2 d2
    have hl2 := hd.1.trans hl1
    have hk := proxies_enable_keeps_log _ l hl2 i3 d3
    have hnt := proxies_enable_new_task _ l hl2 i3 d3
    refine ⟨?_, ?_, ?_⟩
    · rw [hk.1, hl1]
    · rw [hk.2, hd.2.1]
    · intro tid htid
      rw [hnt.1] at htid
      obtain rfl := Option.some.inj htid
      exact ⟨(configure_profiling Category.proxies l i3).start, hnt.2,
        by rw [hl1]; rfl⟩

theorem C2_witness :
    ∃ t, (run [(Category.nodes, fullConf true 5 false),
               (Category.nodes, fullConf false 5 false),
               (Category.nodes, fullConf true 7 false)]).tasks.get? 1
        = some t ∧
      some t.profiler
        = slotLog (run [(Category.nodes, fullConf true 5 false)])
            Category.nodes :=
  (C2_log_object_reused initManager
      (run [(Category.nodes, fullConf true 5 false)])
      (run [(Category.nodes, fullConf true 5 false),
            (Category.nodes, fullConf false 5 false)])
      (run [(Category.nodes, fullConf true 5 false),
            (Category.nodes, fullConf false 5 false),
            (Category.nodes, fullConf true 7 false)])
      Category.nodes 5 5 7 false false false rfl rfl rfl).2.2 1 (by decide)


end StatsApp
